import Mathlib

/-!
# video-compare: the display engine (`display.cpp`)

A shallow embedding of `Display` from `src/display.cpp` / `src/display.h`:
the difference engine (`update_difference`), the zoom transform (`get_zoom`),
the split, the texture update, the zoomed areas, the draw order and the overlay
fade of `refresh`, the event loop of `input`, and `get_quit`.

Conventions of the embedding

* C++ `int` values are integers of `ℤ` (signed overflow is undefined behaviour in
  C++, and the quantities involved are pixel coordinates and per-poll counters).
  `/` on two `int`s is `Int.tdiv` (truncation toward zero).
* C++ `float` values are rationals of `ℚ`: arithmetic is exact, except in
  the definitions with a rounding operator `fl` (`get_zoom_fl`, `split_x_fl`,
  `input_begin_fl`, `texture_update_fl`), where every `float` operation is
  rounded by `fl`: `fl = id` is exact arithmetic, `fl = binary32` is the
  arithmetic of the code.
  `(int)` applied to a `float` is truncation toward zero (`truncToInt`),
  `(int)std::round(..)` rounds halves away from zero (`roundToInt`).
  The value of `get_zoom` is never zero, so the divisions by it are defined;
  the one other division, `float(x) / float(window_width_)` of the Ctrl-click
  seek, follows the convention `q / 0 = 0` of `ℚ` for a window of width zero.
* The one `float` that is not rational, the result of `sqrt`, is kept as its
  radicand (`SqrtFloat`); `sqrt` of a negative argument is NaN, and a comparison
  with NaN is false.
* `uint8_t` values are naturals; the cast `(uint8_t)` is `% 256`.
* A pixel plane is the list of its bytes, a pointer into a plane is an integer
  offset from the first byte of the plane.  A load or store outside the plane
  makes the computation fail (`none`).
-/

namespace VideoCompare

/-! ## Byte memory -/

/-- A plane of bytes (`uint8_t*` together with the extent of its allocation). -/
abbrev Plane := List Nat

/-- The load `p[ptr]` of a `uint8_t`, converted to `int`; fails outside the plane. -/
def loadByte (p : Plane) (ptr : Int) : Option Int :=
  if 0 ≤ ptr then (p[ptr.toNat]?).map Int.ofNat else none

/-- The store `p[ptr] = v`; fails outside the plane. -/
def storeByte (p : Plane) (ptr : Int) (v : Nat) : Option Plane :=
  if 0 ≤ ptr ∧ ptr.toNat < p.length then some (p.set ptr.toNat v) else none

/-- The loop `for (int i = 0; i < n; i++) body(i)` over a state `σ`, the body
being fallible: the state after `n + 1` iterations is the body at `i = n`
applied to the state after `n` iterations. -/
def forLoop {σ : Type} (body : Int → σ → Option σ) : Nat → σ → Option σ
  | 0, s => some s
  | n + 1, s => (forLoop body n s).bind (body (n : Int))

/-! ## `clampIntToByte` (display.cpp:23-32) -/

/-- The function `clampIntToByteRange`: `value > 255 ? 255 : value < 0 ? 0 : value`. -/
def clampIntToByteRange (value : Int) : Int :=
  if value > 255 then 255 else if value < 0 then 0 else value

/-- The function `clampIntToByte`: `(uint8_t)clampIntToByteRange(value)`. -/
def clampIntToByte (value : Int) : Nat :=
  (clampIntToByteRange value % 256).toNat

/-! ## `Display::update_difference` (display.cpp:149-203) -/

/-- The nine running pointers of `update_difference`, as offsets into the left
plane, the right plane and the diff buffer, and the diff buffer itself. -/
structure DiffCursor where
  p_left_r : Int
  p_left_g : Int
  p_left_b : Int
  p_right_r : Int
  p_right_g : Int
  p_right_b : Int
  p_diff_r : Int
  p_diff_g : Int
  p_diff_b : Int
  diff : Plane
  deriving DecidableEq

/-- The constant `const int amplification = 2;` of `update_difference`. -/
def amplification : Int := 2

/-- The body of the inner loop (display.cpp:172-188) at column counter `x`. -/
def diff_pixel (left right : Plane) (c : DiffCursor) (x : Int) (diff : Plane) :
    Option Plane := do
  let rgb1_0 ← loadByte left (c.p_left_r + x * 3)
  let rgb1_1 ← loadByte left (c.p_left_g + x * 3)
  let rgb1_2 ← loadByte left (c.p_left_b + x * 3)
  let rgb2_0 ← loadByte right (c.p_right_r + x * 3)
  let rgb2_1 ← loadByte right (c.p_right_g + x * 3)
  let rgb2_2 ← loadByte right (c.p_right_b + x * 3)
  let diff_0 := |rgb1_0 - rgb2_0| * amplification
  let diff_1 := |rgb1_1 - rgb2_1| * amplification
  let diff_2 := |rgb1_2 - rgb2_2| * amplification
  let diff ← storeByte diff (c.p_diff_r + x * 3) (clampIntToByte diff_0)
  let diff ← storeByte diff (c.p_diff_g + x * 3) (clampIntToByte diff_1)
  storeByte diff (c.p_diff_b + x * 3) (clampIntToByte diff_2)

/-- The body of the outer loop (display.cpp:169-202): the inner loop over the
columns, then the nine pointers advance by one row. -/
def diff_row (video_width_ : Int) (left : Plane) (pitch_left : Nat)
    (right : Plane) (pitch_right : Nat) (split_x : Int) (_y : Int)
    (c : DiffCursor) : Option DiffCursor := do
  let diff ← forLoop (diff_pixel left right c) (video_width_ - split_x).toNat c.diff
  pure
    { p_left_r := c.p_left_r + pitch_left
      p_left_g := c.p_left_g + pitch_left
      p_left_b := c.p_left_b + pitch_left
      p_right_r := c.p_right_r + pitch_right
      p_right_g := c.p_right_g + pitch_right
      p_right_b := c.p_right_b + pitch_right
      p_diff_r := c.p_diff_r + video_width_ * 3
      p_diff_g := c.p_diff_g + video_width_ * 3
      p_diff_b := c.p_diff_b + video_width_ * 3
      diff := diff }

/-- The initial values of the nine pointers (display.cpp:154-164). -/
def diff_start (split_x : Int) (diff_buffer_ : Plane) : DiffCursor :=
  { p_left_r := split_x * 3
    p_left_g := split_x * 3 + 1
    p_left_b := split_x * 3 + 2
    p_right_r := split_x * 3
    p_right_g := split_x * 3 + 1
    p_right_b := split_x * 3 + 2
    p_diff_r := split_x * 3
    p_diff_g := split_x * 3 + 1
    p_diff_b := split_x * 3 + 2
    diff := diff_buffer_ }

/-- The method `Display::update_difference` on the members it uses (`video_width_`,
`video_height_`, and the diff buffer `diff_planes_[0]`); plane 0 of each source
and its pitch are the only entries of the arrays that are read.  The result is
the diff buffer after the call. -/
def update_difference (video_width_ video_height_ : Int) (diff_buffer_ : Plane)
    (plane_left : Plane) (pitch_left : Nat)
    (plane_right : Plane) (pitch_right : Nat) (split_x : Int) : Option Plane :=
  (forLoop (diff_row video_width_ plane_left pitch_left plane_right pitch_right split_x)
    video_height_.toNat (diff_start split_x diff_buffer_)).map (fun c => c.diff)

/-! ## Conversions between `float` and `int` -/

/-- The conversion `(int)q` of a `float`: truncation toward zero. -/
def truncToInt (q : ℚ) : Int :=
  if 0 ≤ q then ⌊q⌋ else ⌈q⌉

/-- The conversion `(int)std::round(q)`: the nearest integer, halves away from zero. -/
def roundToInt (q : ℚ) : Int :=
  if 0 ≤ q then ⌊q + 1 / 2⌋ else ⌈q - 1 / 2⌉

/-! ## The state of `Display` (display.h:15-74) -/

/-- The data members of `Display` that `update_difference`, `get_zoom`,
`refresh` and `input` read or write.  A label texture (`SDL_Texture*`) is a
handle; the diff buffer is the plane `diff_planes_[0]`. -/
structure Display where
  video_width_ : Int
  video_height_ : Int
  window_width_ : Int
  window_height_ : Int
  zoom_factor_ : ℚ
  window_center_pixel_x_ : Int
  window_center_pixel_y_ : Int
  quit_ : Bool
  play_ : Bool
  swap_left_right_ : Bool
  show_left_ : Bool
  show_right_ : Bool
  show_hud_ : Bool
  subtraction_mode_ : Bool
  seek_relative_ : ℚ
  frame_offset_delta_ : Int
  seek_from_start_ : Bool
  diff_buffer_ : Plane
  left_text_texture : Nat
  right_text_texture : Nat
  left_text_width : Int
  left_text_height : Int
  right_text_width : Int
  right_text_height : Int
  left_button_down_ : Bool
  right_button_down_ : Bool
  right_button_down_x_ : Int
  right_button_down_y_ : Int
  window_center_pixel_anchor_x_ : Int
  window_center_pixel_anchor_y_ : Int
  mouse_x : Int
  mouse_y : Int
  deriving DecidableEq

/-- The constructor `Display::Display` (display.cpp:47-127) on the members above, with the
default member initialisers of display.h:32-41.  The window size and the label
textures come from SDL; the members the constructor leaves uninitialised
(`right_button_down_x_`, `right_button_down_y_` and the two anchors) hold the
indeterminate value `junk`. -/
def Display.construct (width height : Nat) (window_width_ window_height_ : Int)
    (left_text_texture right_text_texture : Nat)
    (left_text_width left_text_height right_text_width right_text_height : Int)
    (junk : Int) : Display :=
  { video_width_ := width
    video_height_ := height
    window_width_ := window_width_
    window_height_ := window_height_
    zoom_factor_ := 0
    window_center_pixel_x_ := Int.tdiv width 2
    window_center_pixel_y_ := Int.tdiv height 2
    quit_ := false
    play_ := true
    swap_left_right_ := false
    show_left_ := true
    show_right_ := true
    show_hud_ := true
    subtraction_mode_ := false
    seek_relative_ := 0
    frame_offset_delta_ := 0
    seek_from_start_ := false
    diff_buffer_ := List.replicate (width * height * 3) 0
    left_text_texture := left_text_texture
    right_text_texture := right_text_texture
    left_text_width := left_text_width
    left_text_height := left_text_height
    right_text_width := right_text_width
    right_text_height := right_text_height
    left_button_down_ := false
    right_button_down_ := false
    right_button_down_x_ := junk
    right_button_down_y_ := junk
    window_center_pixel_anchor_x_ := junk
    window_center_pixel_anchor_y_ := junk
    mouse_x := Int.tdiv window_width_ 2
    mouse_y := Int.tdiv window_height_ 2 }

/-! ## `Display::get_zoom` (display.cpp:205-211) -/

/-- The method `Display::get_zoom`:
`if (zoom_factor_ >= 0) return 1 + zoom_factor_; else return 1 / (1 - zoom_factor_);` -/
def get_zoom (s : Display) : ℚ :=
  if s.zoom_factor_ ≥ 0 then 1 + s.zoom_factor_ else 1 / (1 - s.zoom_factor_)

/-! ## `Display::refresh`: the pointer in video space and the split (display.cpp:221-232) -/

/-- The local `bool compare_mode = show_left_ && show_right_;` of `refresh`. -/
def compare_mode (s : Display) : Bool :=
  s.show_left_ && s.show_right_

/-- The local `mouse_video_x` of `refresh` (display.cpp:224). -/
def mouse_video_x (s : Display) : Int :=
  min (max 0 (roundToInt (((s.mouse_x - Int.tdiv s.window_width_ 2 : Int) : ℚ) / get_zoom s)
    + s.window_center_pixel_x_)) s.video_width_

/-- The local `mouse_video_y` of `refresh` (display.cpp:225). -/
def mouse_video_y (s : Display) : Int :=
  min (max 0 (roundToInt (((s.mouse_y - Int.tdiv s.window_height_ 2 : Int) : ℚ) / get_zoom s)
    + s.window_center_pixel_y_)) s.video_height_

/-- The local `split_x` of `refresh` (display.cpp:232); it exists only inside
`if (show_left_ || show_right_)`. -/
def split_x (s : Display) : Option Int :=
  if s.show_left_ || s.show_right_ then
    some (if compare_mode s then mouse_video_x s else if s.show_left_ then s.video_width_ else 0)
  else none

/-! ## `Display::input` (display.cpp:382-537) -/

/-- The key codes `input` dispatches on; every other key is `other`. -/
inductive SDL_Keycode where
  | SDLK_ESCAPE | SDLK_SPACE | SDLK_1 | SDLK_2 | SDLK_3 | SDLK_0
  | SDLK_a | SDLK_d | SDLK_s
  | SDLK_LEFT | SDLK_DOWN | SDLK_PAGEDOWN | SDLK_RIGHT | SDLK_UP | SDLK_PAGEUP
  | SDLK_PLUS | SDLK_KP_PLUS | SDLK_MINUS | SDLK_KP_MINUS
  | SDLK_KP_4 | SDLK_KP_6 | SDLK_KP_8 | SDLK_KP_2 | SDLK_KP_5
  | other
  deriving DecidableEq

/-- The events `input` dispatches on (`event_.type` with the payload that is
read); every other event type is `other`. -/
inductive SDL_Event where
  | SDL_MOUSEBUTTONDOWN (button : Nat)
  | SDL_MOUSEBUTTONUP (button : Nat)
  | SDL_MOUSEWHEEL (y : Int)
  | SDL_KEYDOWN (sym : SDL_Keycode)
  | SDL_QUIT
  | other
  deriving DecidableEq

/-- The constant `SDL_BUTTON_LEFT` of SDL2. -/
def SDL_BUTTON_LEFT : Nat := 1

/-- The constant `SDL_BUTTON_RIGHT` of SDL2. -/
def SDL_BUTTON_RIGHT : Nat := 3

/-- The constant `KMOD_LCTRL` of SDL2. -/
def KMOD_LCTRL : Nat := 0x0040

/-- The constant `KMOD_RCTRL` of SDL2. -/
def KMOD_RCTRL : Nat := 0x0080

/-- What SDL reports when asked: the pointer position of `SDL_GetMouseState`
and the modifier mask of `SDL_GetModState`. -/
structure SDL_State where
  x : Int
  y : Int
  mod : Nat
  deriving DecidableEq

open SDL_Keycode SDL_Event

/-- The `case SDL_KEYDOWN:` switch on `event_.key.keysym.sym` (display.cpp:441-528). -/
def key_down (s : Display) (sym : SDL_Keycode) : Display :=
  match sym with
  | SDLK_ESCAPE => { s with quit_ := true }
  | SDLK_SPACE => { s with play_ := !s.play_ }
  | SDLK_1 => { s with show_left_ := !s.show_left_ }
  | SDLK_2 => { s with show_right_ := !s.show_right_ }
  | SDLK_3 => { s with show_hud_ := !s.show_hud_ }
  | SDLK_0 => { s with subtraction_mode_ := !s.subtraction_mode_ }
  | SDLK_a => { s with frame_offset_delta_ := s.frame_offset_delta_ + 1 }
  | SDLK_d => { s with frame_offset_delta_ := s.frame_offset_delta_ - 1 }
  | SDLK_s =>
    { s with
      swap_left_right_ := !s.swap_left_right_
      left_text_texture := s.right_text_texture
      right_text_texture := s.left_text_texture
      left_text_width := s.right_text_width
      right_text_width := s.left_text_width
      left_text_height := s.right_text_height
      right_text_height := s.left_text_height }
  | SDLK_LEFT => { s with seek_relative_ := s.seek_relative_ - 1 }
  | SDLK_DOWN => { s with seek_relative_ := s.seek_relative_ - 10 }
  | SDLK_PAGEDOWN => { s with seek_relative_ := s.seek_relative_ - 600 }
  | SDLK_RIGHT => { s with seek_relative_ := s.seek_relative_ + 1 }
  | SDLK_UP => { s with seek_relative_ := s.seek_relative_ + 10 }
  | SDLK_PAGEUP => { s with seek_relative_ := s.seek_relative_ + 600 }
  | SDLK_PLUS => { s with zoom_factor_ := s.zoom_factor_ + 2 / 10 }
  | SDLK_KP_PLUS => { s with zoom_factor_ := s.zoom_factor_ + 2 / 10 }
  | SDLK_MINUS => { s with zoom_factor_ := s.zoom_factor_ - 2 / 10 }
  | SDLK_KP_MINUS => { s with zoom_factor_ := s.zoom_factor_ - 2 / 10 }
  | SDLK_KP_4 =>
    { s with window_center_pixel_x_ :=
        truncToInt ((s.window_center_pixel_x_ : ℚ) - (s.window_width_ : ℚ) / get_zoom s / 20) }
  | SDLK_KP_6 =>
    { s with window_center_pixel_x_ :=
        truncToInt ((s.window_center_pixel_x_ : ℚ) + (s.window_width_ : ℚ) / get_zoom s / 20) }
  | SDLK_KP_8 =>
    { s with window_center_pixel_y_ :=
        truncToInt ((s.window_center_pixel_y_ : ℚ) - (s.window_height_ : ℚ) / get_zoom s / 20) }
  | SDLK_KP_2 =>
    { s with window_center_pixel_y_ :=
        truncToInt ((s.window_center_pixel_y_ : ℚ) + (s.window_height_ : ℚ) / get_zoom s / 20) }
  | SDLK_KP_5 =>
    { s with
      window_center_pixel_x_ := Int.tdiv s.video_width_ 2
      window_center_pixel_y_ := Int.tdiv s.video_height_ 2 }
  | SDL_Keycode.other => s

/-- The `case SDL_MOUSEBUTTONDOWN:` block (display.cpp:403-427); `sdl` is what
`SDL_GetModState` and `SDL_GetMouseState` return while the event is processed. -/
def mouse_button_down (s : Display) (sdl : SDL_State) (button : Nat) : Display :=
  let s1 :=
    if button = SDL_BUTTON_LEFT then
      if sdl.mod &&& KMOD_LCTRL ≠ 0 ∨ sdl.mod &&& KMOD_RCTRL ≠ 0 then
        { s with
          seek_relative_ := (sdl.x : ℚ) / (s.window_width_ : ℚ)
          seek_from_start_ := true }
      else
        { s with
          left_button_down_ := true
          mouse_x := sdl.x
          mouse_y := sdl.y }
    else s
  if button = SDL_BUTTON_RIGHT then
    { s1 with
      right_button_down_ := true
      right_button_down_x_ := sdl.x
      right_button_down_y_ := sdl.y
      window_center_pixel_anchor_x_ := s1.window_center_pixel_x_
      window_center_pixel_anchor_y_ := s1.window_center_pixel_y_ }
  else s1

/-- The `case SDL_MOUSEBUTTONUP:` block (display.cpp:428-433). -/
def mouse_button_up (s : Display) (button : Nat) : Display :=
  let s1 := if button = SDL_BUTTON_LEFT then { s with left_button_down_ := false } else s
  if button = SDL_BUTTON_RIGHT then { s1 with right_button_down_ := false } else s1

/-- The `case SDL_MOUSEWHEEL:` block (display.cpp:434-439). -/
def mouse_wheel (s : Display) (y : Int) : Display :=
  if y > 0 then { s with zoom_factor_ := s.zoom_factor_ + 2 / 10 }
  else if y < 0 then { s with zoom_factor_ := s.zoom_factor_ - 2 / 10 }
  else s

/-- The body of `while (SDL_PollEvent(&event_))`: the switch on `event_.type`
(display.cpp:401-535). -/
def handle_event (s : Display) (sdl : SDL_State) (ev : SDL_Event) : Display :=
  match ev with
  | SDL_MOUSEBUTTONDOWN button => mouse_button_down s sdl button
  | SDL_MOUSEBUTTONUP button => mouse_button_up s button
  | SDL_MOUSEWHEEL y => mouse_wheel s y
  | SDL_KEYDOWN sym => key_down s sym
  | SDL_QUIT => { s with quit_ := true }
  | SDL_Event.other => s

/-- The loop `while (SDL_PollEvent(&event_)) { ... }` over the queued events,
each with the SDL state at the time it is processed. -/
def poll_events (s : Display) (events : List (SDL_State × SDL_Event)) : Display :=
  events.foldl (fun s e => handle_event s e.1 e.2) s

/-- The part of `input` before the poll loop (display.cpp:384-397); `sdl` is what
`SDL_GetMouseState` returns at the start of the call. -/
def input_begin (s : Display) (sdl : SDL_State) : Display :=
  let s1 := if s.left_button_down_ then { s with mouse_x := sdl.x, mouse_y := sdl.y } else s
  let s2 :=
    if s1.right_button_down_ then
      { s1 with
        window_center_pixel_x_ :=
          truncToInt ((s1.window_center_pixel_anchor_x_ : ℚ)
            + ((s1.right_button_down_x_ - sdl.x : Int) : ℚ) / get_zoom s1)
        window_center_pixel_y_ :=
          truncToInt ((s1.window_center_pixel_anchor_y_ : ℚ)
            + ((s1.right_button_down_y_ - sdl.y : Int) : ℚ) / get_zoom s1) }
    else s1
  { s2 with seek_relative_ := 0, seek_from_start_ := false, frame_offset_delta_ := 0 }

/-- The method `Display::input`: one poll that drains `events`. -/
def input (s : Display) (sdl : SDL_State) (events : List (SDL_State × SDL_Event)) : Display :=
  poll_events (input_begin s sdl) events

/-! ## `Display::refresh`: the texture update (display.cpp:230-258) -/

/-- An `SDL_Rect`. -/
structure SDL_Rect where
  x : Int
  y : Int
  w : Int
  h : Int
  deriving DecidableEq

/-- The call `SDL_UpdateTexture(texture_, &rect, pixels + ptr, pitch)` of SDL2 on
the RGB24 display texture, stored as `video_width_ * 3` bytes per row: row `r` of
the rectangle is copied from the `rect.w * 3` bytes at `pixels + ptr + r * pitch`.
Rectangles that leave the columns of the texture are not modelled (`none`). -/
def SDL_UpdateTexture (video_width_ : Int) (texture_ : Plane) (rect : SDL_Rect)
    (pixels : Plane) (ptr : Int) (pitch : Int) : Option Plane :=
  if 0 ≤ rect.x ∧ 0 ≤ rect.w ∧ rect.x + rect.w ≤ video_width_ then
    forLoop
      (fun row tex =>
        forLoop
          (fun b tex => do
            let v ← loadByte pixels (ptr + row * pitch + b)
            storeByte tex ((rect.y + row) * (video_width_ * 3) + rect.x * 3 + b) v.toNat)
          (rect.w * 3).toNat tex)
      rect.h.toNat texture_
  else none

/-- The texture update of `refresh` (display.cpp:230-258): from the state, the
display texture and plane 0 of the two frames with their pitches to the diff
buffer and the display texture after the step.  Outside
`if (show_left_ || show_right_)` nothing is updated. -/
def texture_update (s : Display) (texture_ : Plane)
    (plane_left : Plane) (pitch_left : Nat) (plane_right : Plane) (pitch_right : Nat) :
    Option (Plane × Plane) :=
  match split_x s with
  | none => some (s.diff_buffer_, texture_)
  | some split_x => do
    let texture1 ←
      if s.show_left_ = true ∧ split_x > 0 then
        SDL_UpdateTexture s.video_width_ texture_ ⟨0, 0, split_x, s.video_height_⟩
          plane_left 0 pitch_left
      else some texture_
    if s.show_right_ = true ∧ split_x < s.video_width_ - 1 then
      if s.subtraction_mode_ = true then do
        let diff ← update_difference s.video_width_ s.video_height_ s.diff_buffer_
          plane_left pitch_left plane_right pitch_right split_x
        let texture2 ← SDL_UpdateTexture s.video_width_ texture1
          ⟨split_x, 0, s.video_width_ - split_x, s.video_height_⟩
          diff (split_x * 3) (s.video_width_ * 3)
        some (diff, texture2)
      else do
        let texture2 ← SDL_UpdateTexture s.video_width_ texture1
          ⟨split_x, 0, s.video_width_ - split_x, s.video_height_⟩
          plane_right (split_x * 3) pitch_right
        some (s.diff_buffer_, texture2)
    else some (s.diff_buffer_, texture1)

/-- The `split_x` arguments of the calls of `update_difference` that one
`refresh` makes (display.cpp:241-247): at most one call, in subtraction mode,
under the guard of the right-hand update. -/
def update_difference_calls (s : Display) : List Int :=
  match split_x s with
  | none => []
  | some split_x =>
    if s.show_right_ = true ∧ split_x < s.video_width_ - 1 then
      if s.subtraction_mode_ = true then [split_x] else []
    else []

/-! ## `Display::refresh`: the zoomed areas (display.cpp:261-268) -/

/-- The local `src_x_offset` of `refresh` (display.cpp:261). -/
def src_x_offset (s : Display) : Int :=
  min (max 0 (truncToInt
    ((s.window_center_pixel_x_ : ℚ) - (s.window_width_ : ℚ) / get_zoom s / 2))) s.video_width_

/-- The local `src_y_offset` of `refresh` (display.cpp:262). -/
def src_y_offset (s : Display) : Int :=
  min (max 0 (truncToInt
    ((s.window_center_pixel_y_ : ℚ) - (s.window_height_ : ℚ) / get_zoom s / 2))) s.video_height_

/-- The local `src_zoomed_area` of `refresh` (display.cpp:263-265). -/
def src_zoomed_area (s : Display) : SDL_Rect :=
  { x := src_x_offset s
    y := src_y_offset s
    w := min (truncToInt
        ((s.window_center_pixel_x_ : ℚ) + (s.window_width_ : ℚ) / get_zoom s / 2))
      s.video_width_ - src_x_offset s
    h := min (truncToInt
        ((s.window_center_pixel_y_ : ℚ) + (s.window_height_ : ℚ) / get_zoom s / 2))
      s.video_height_ - src_y_offset s }

/-- The local `dst_zoomed_area` of `refresh` (display.cpp:266-268). -/
def dst_zoomed_area (s : Display) : SDL_Rect :=
  { x := min (max 0 (truncToInt
        (((Int.tdiv s.window_width_ 2 : Int) : ℚ)
          - ((s.window_center_pixel_x_ - (src_zoomed_area s).x : Int) : ℚ) * get_zoom s)))
      s.window_width_
    y := min (max 0 (truncToInt
        (((Int.tdiv s.window_height_ 2 : Int) : ℚ)
          - ((s.window_center_pixel_y_ - (src_zoomed_area s).y : Int) : ℚ) * get_zoom s)))
      s.window_height_
    w := min (truncToInt (((src_zoomed_area s).w : ℚ) * get_zoom s)) s.window_width_
    h := min (truncToInt (((src_zoomed_area s).h : ℚ) * get_zoom s)) s.window_height_ }

/-! ## `Display::refresh`: the order of the draw operations (display.cpp:227-379) -/

/-- What a draw operation of `refresh` draws: the video texture, one of the
five HUD texts (or the backing rectangle of that text), or the error message. -/
inductive Layer where
  | video | left_text | left_position | right_text | right_position | center_text
  | error_message
  deriving DecidableEq

/-- The calls of `refresh` that draw on the renderer, without their rectangles
and colours. -/
inductive DrawOp where
  | SDL_RenderClear
  | SDL_RenderCopy (layer : Layer)
  | SDL_RenderFillRect (layer : Layer)
  | SDL_RenderDrawLine
  | SDL_RenderPresent
  deriving DecidableEq

/-- The draw operations of one `refresh`, in the order of the source.
`error_message_texture` is the member before the call (`none` for `nullptr`),
`rendered_message` the texture made from `error_message` when that string is
not empty (`none` when it is empty). -/
def refresh_draw_ops (s : Display) (error_message_texture rendered_message : Option Nat) :
    List DrawOp :=
  [DrawOp.SDL_RenderClear]
  ++ (if s.show_left_ || s.show_right_ then [DrawOp.SDL_RenderCopy Layer.video] else [])
  ++ (if s.show_hud_ then
        (if s.show_left_ then
          [DrawOp.SDL_RenderFillRect Layer.left_text,
            DrawOp.SDL_RenderFillRect Layer.left_position,
            DrawOp.SDL_RenderCopy Layer.left_text,
            DrawOp.SDL_RenderCopy Layer.left_position]
        else [])
        ++ (if s.show_right_ then
          [DrawOp.SDL_RenderFillRect Layer.right_text,
            DrawOp.SDL_RenderFillRect Layer.right_position,
            DrawOp.SDL_RenderCopy Layer.right_text,
            DrawOp.SDL_RenderCopy Layer.right_position]
        else [])
        ++ [DrawOp.SDL_RenderFillRect Layer.center_text,
            DrawOp.SDL_RenderCopy Layer.center_text]
      else [])
  ++ (if (rendered_message.orElse fun _ => error_message_texture).isSome then
        [DrawOp.SDL_RenderFillRect Layer.error_message,
          DrawOp.SDL_RenderCopy Layer.error_message]
      else [])
  ++ (if s.show_hud_ && compare_mode s then [DrawOp.SDL_RenderDrawLine] else [])
  ++ [DrawOp.SDL_RenderPresent]

/-! ## `Display::refresh`: the fade of the error overlay (display.cpp:357-358) -/

/-- A `float` that is NaN or the square root of the non-negative rational
`radicand`: the values `sqrt` yields on rational arguments. -/
inductive SqrtFloat where
  | nan
  | root (radicand : ℚ)
  deriving DecidableEq

/-- The call `sqrt(q)`: NaN for a negative argument. -/
def c_sqrt (q : ℚ) : SqrtFloat :=
  if q < 0 then SqrtFloat.nan else SqrtFloat.root q

/-- The comparison `a < b` of two such floats: false when either is NaN. -/
def SqrtFloat.lt : SqrtFloat → SqrtFloat → Bool
  | SqrtFloat.root a, SqrtFloat.root b => decide (a < b)
  | _, _ => false

/-- The call `std::max(a, b)`, which is `(a < b) ? b : a`. -/
def std_max (a b : SqrtFloat) : SqrtFloat :=
  if SqrtFloat.lt a b then b else a

/-- The local `keep_alpha` of `refresh` (display.cpp:358) for
`(now - error_message_shown_at).count() = elapsed_ms`:
`std::max(sqrt(1.0f - elapsed_ms / 1000.0f / 4.0f), 0.0f)`. -/
def keep_alpha (elapsed_ms : Int) : SqrtFloat :=
  std_max (c_sqrt (1 - (elapsed_ms : ℚ) / 1000 / 4)) (SqrtFloat.root 0)

/-! ## Sequences of polls -/

/-- The state after a sequence of calls of `input`, each given by the pointer
at its start and the events it drains. -/
def run_polls (s : Display) (polls : List (SDL_State × List (SDL_State × SDL_Event))) :
    Display :=
  polls.foldl (fun s p => input s p.1 p.2) s

/-- An event that pans the view: a right-button-down (it starts a right-drag)
or a key-down of the keypad pan keys 4, 6, 8, 2. -/
def pans_view : SDL_Event → Bool
  | SDL_MOUSEBUTTONDOWN button => decide (button = SDL_BUTTON_RIGHT)
  | SDL_KEYDOWN SDLK_KP_4 => true
  | SDL_KEYDOWN SDLK_KP_6 => true
  | SDL_KEYDOWN SDLK_KP_8 => true
  | SDL_KEYDOWN SDLK_KP_2 => true
  | _ => false

/-- An event that assigns the view center while it is processed: a key-down
of the keypad keys 4, 6, 8, 2 or 5. -/
def sets_center : SDL_Event → Bool
  | SDL_KEYDOWN SDLK_KP_4 => true
  | SDL_KEYDOWN SDLK_KP_6 => true
  | SDL_KEYDOWN SDLK_KP_8 => true
  | SDL_KEYDOWN SDLK_KP_2 => true
  | SDL_KEYDOWN SDLK_KP_5 => true
  | _ => false


/-! ## `Display::get_quit` (display.cpp:539-542) -/

/-- The method `Display::get_quit`: `return quit_;` -/
def get_quit (s : Display) : Bool :=
  s.quit_


/-! ## The code's arithmetic: `float` operations with their rounding

The definitions above take `float` arithmetic as exact.  The definitions of
this section repeat the `float` expressions of `get_zoom`, of the split of
`refresh` and of the right-drag pan of `input` with a rounding operator `fl`
applied to the exact result of every `float` operation and of every conversion
from `int` to `float`, as IEEE 754 arithmetic does.  With `fl = id` they are the
definitions above; with `fl = binary32` they are the arithmetic of the code. -/

/-- The nearest integer, a tie going to the even one. -/
def roundHalfEven (x : ℚ) : Int :=
  if x - (⌊x⌋ : ℚ) < 1 / 2 then ⌊x⌋
  else if 1 / 2 < x - (⌊x⌋ : ℚ) then ⌊x⌋ + 1
  else if ⌊x⌋ % 2 = 0 then ⌊x⌋ else ⌊x⌋ + 1

/-- The rounding of an exact result to a binary32 `float`: to the nearest
number with a significand of 24 bits, a tie going to the even significand.  The
exponent is not bounded: overflow (from `2 ^ 128`) and subnormal numbers (below
`2 ^ (-126)`) are left out. -/
def binary32 (q : ℚ) : ℚ :=
  if q = 0 then 0
  else (roundHalfEven (q / 2 ^ (Int.log 2 |q| - 23)) : ℚ) * 2 ^ (Int.log 2 |q| - 23)

/-- The method `Display::get_zoom` with the rounding of its `float` operations:
`1 + zoom_factor_`, and `1 / (1 - zoom_factor_)` with the difference rounded
first. -/
def get_zoom_fl (fl : ℚ → ℚ) (s : Display) : ℚ :=
  if s.zoom_factor_ ≥ 0 then fl (1 + s.zoom_factor_) else fl (1 / fl (1 - s.zoom_factor_))

/-- The local `mouse_video_x` of `refresh` (display.cpp:224) with the rounding
of its `float` operations: the `int` difference is converted to `float`, divided
by `zoom`, and the quotient goes to `std::round`. -/
def mouse_video_x_fl (fl : ℚ → ℚ) (s : Display) : Int :=
  min (max 0 (roundToInt (fl (fl ((s.mouse_x - Int.tdiv s.window_width_ 2 : Int) : ℚ)
      / get_zoom_fl fl s))
    + s.window_center_pixel_x_)) s.video_width_

/-- The local `split_x` of `refresh` (display.cpp:232) over `mouse_video_x_fl`. -/
def split_x_fl (fl : ℚ → ℚ) (s : Display) : Option Int :=
  if s.show_left_ || s.show_right_ then
    some (if compare_mode s then mouse_video_x_fl fl s
      else if s.show_left_ then s.video_width_ else 0)
  else none

/-- The part of `input` before the poll loop (display.cpp:384-397) with the
rounding of the `float` operations of the right-drag pan: the `int` difference
and the anchor are converted to `float`, the quotient and the sum are rounded,
and the sum is converted to `int`. -/
def input_begin_fl (fl : ℚ → ℚ) (s : Display) (sdl : SDL_State) : Display :=
  let s1 := if s.left_button_down_ then { s with mouse_x := sdl.x, mouse_y := sdl.y } else s
  let s2 :=
    if s1.right_button_down_ then
      { s1 with
        window_center_pixel_x_ :=
          truncToInt (fl (fl (s1.window_center_pixel_anchor_x_ : ℚ)
            + fl (fl ((s1.right_button_down_x_ - sdl.x : Int) : ℚ) / get_zoom_fl fl s1)))
        window_center_pixel_y_ :=
          truncToInt (fl (fl (s1.window_center_pixel_anchor_y_ : ℚ)
            + fl (fl ((s1.right_button_down_y_ - sdl.y : Int) : ℚ) / get_zoom_fl fl s1))) }
    else s1
  { s2 with seek_relative_ := 0, seek_from_start_ := false, frame_offset_delta_ := 0 }

/-- The method `Display::input` over `input_begin_fl`. -/
def input_fl (fl : ℚ → ℚ) (s : Display) (sdl : SDL_State)
    (events : List (SDL_State × SDL_Event)) : Display :=
  poll_events (input_begin_fl fl s sdl) events

/-- The place of a draw operation in the order of one `refresh`: clear, video
blit, HUD panels, error overlay, slider line, present. -/
def draw_stage : DrawOp → Nat
  | DrawOp.SDL_RenderClear => 0
  | DrawOp.SDL_RenderCopy Layer.video => 1
  | DrawOp.SDL_RenderFillRect Layer.video => 1
  | DrawOp.SDL_RenderCopy Layer.error_message => 3
  | DrawOp.SDL_RenderFillRect Layer.error_message => 3
  | DrawOp.SDL_RenderCopy _ => 2
  | DrawOp.SDL_RenderFillRect _ => 2
  | DrawOp.SDL_RenderDrawLine => 4
  | DrawOp.SDL_RenderPresent => 5

/-- The texture update of `refresh` (display.cpp:233-258) for the split that the
refresh computed (`none` outside `if (show_left_ || show_right_)`): the body of
`texture_update` with the split given. -/
def texture_update_at (s : Display) (split : Option Int) (texture_ : Plane)
    (plane_left : Plane) (pitch_left : Nat) (plane_right : Plane) (pitch_right : Nat) :
    Option (Plane × Plane) :=
  match split with
  | none => some (s.diff_buffer_, texture_)
  | some split_x => do
    let texture1 ←
      if s.show_left_ = true ∧ split_x > 0 then
        SDL_UpdateTexture s.video_width_ texture_ ⟨0, 0, split_x, s.video_height_⟩
          plane_left 0 pitch_left
      else some texture_
    if s.show_right_ = true ∧ split_x < s.video_width_ - 1 then
      if s.subtraction_mode_ = true then do
        let diff ← update_difference s.video_width_ s.video_height_ s.diff_buffer_
          plane_left pitch_left plane_right pitch_right split_x
        let texture2 ← SDL_UpdateTexture s.video_width_ texture1
          ⟨split_x, 0, s.video_width_ - split_x, s.video_height_⟩
          diff (split_x * 3) (s.video_width_ * 3)
        some (diff, texture2)
      else do
        let texture2 ← SDL_UpdateTexture s.video_width_ texture1
          ⟨split_x, 0, s.video_width_ - split_x, s.video_height_⟩
          plane_right (split_x * 3) pitch_right
        some (s.diff_buffer_, texture2)
    else some (s.diff_buffer_, texture1)

/-- The texture update of `refresh` with the split of `split_x_fl`. -/
def texture_update_fl (fl : ℚ → ℚ) (s : Display) (texture_ : Plane)
    (plane_left : Plane) (pitch_left : Nat) (plane_right : Plane) (pitch_right : Nat) :
    Option (Plane × Plane) :=
  texture_update_at s (split_x_fl fl s) texture_ plane_left pitch_left plane_right pitch_right


/-! ## Quantities of the specification -/

/-- The value the difference engine stores for source bytes `l` and `r`. -/
def diffByte (l r : Nat) : Nat := clampIntToByte (|(l : Int) - (r : Int)| * amplification)

/-- The clamp of `v` to `[lo, hi]` of the specification. -/
def spec_clamp (v lo hi : Int) : Int := min (max v lo) hi

/-- The per-key seek amount of the specification: left -1, right +1, down -10,
up +10, page-down -600, page-up +600, every other key 0. -/
def spec_seek_amount : SDL_Keycode → ℚ
  | SDLK_LEFT => -1
  | SDLK_RIGHT => 1
  | SDLK_DOWN => -10
  | SDLK_UP => 10
  | SDLK_PAGEDOWN => -600
  | SDLK_PAGEUP => 600
  | _ => 0


/-! ## Lemmas on the byte memory -/

theorem loadByte_of_lt (p : Plane) (i : Nat) (h : i < p.length) :
    loadByte p (i : Int) = some ((p.getD i 0 : Nat) : Int) := by
  unfold loadByte
  have h0 : (0 : Int) ≤ (i : Int) := Int.ofNat_nonneg i
  rw [if_pos h0, Int.toNat_ofNat, List.getD_eq_getElem?_getD, List.getElem?_eq_getElem h]
  rfl

theorem storeByte_of_lt (p : Plane) (i : Nat) (v : Nat) (h : i < p.length) :
    storeByte p (i : Int) v = some (p.set i v) := by
  unfold storeByte
  have h0 : (0 : Int) ≤ (i : Int) ∧ (i : Int).toNat < p.length := by
    constructor
    · exact Int.ofNat_nonneg i
    · simpa using h
  rw [if_pos h0, Int.toNat_ofNat]

theorem getD_set (p : Plane) (i j v : Nat) (h : i < p.length) :
    (p.set i v).getD j 0 = if i = j then v else p.getD j 0 := by
  simp only [List.getD_eq_getElem?_getD, List.getElem?_set]
  by_cases hij : i = j
  · subst hij
    simp [h]
  · simp [hij]

/-- One pixel of the inner loop, for pointers in bounds. -/
theorem diff_pixel_eq (left right : Plane) (c : DiffCursor) (L R D n : Nat) (buf : Plane)
    (hl : c.p_left_r = L) (hlg : c.p_left_g = L + 1) (hlb : c.p_left_b = L + 2)
    (hr : c.p_right_r = R) (hrg : c.p_right_g = R + 1) (hrb : c.p_right_b = R + 2)
    (hd : c.p_diff_r = D) (hdg : c.p_diff_g = D + 1) (hdb : c.p_diff_b = D + 2)
    (hL : L + 3 * n + 3 ≤ left.length) (hR : R + 3 * n + 3 ≤ right.length)
    (hD : D + 3 * n + 3 ≤ buf.length) :
    diff_pixel left right c (n : Int) buf =
      some (((buf.set (D + 3 * n) (diffByte (left.getD (L + 3 * n) 0) (right.getD (R + 3 * n) 0))).set
        (D + 3 * n + 1) (diffByte (left.getD (L + 3 * n + 1) 0) (right.getD (R + 3 * n + 1) 0))).set
        (D + 3 * n + 2) (diffByte (left.getD (L + 3 * n + 2) 0) (right.getD (R + 3 * n + 2) 0))) := by
  have e0 : c.p_left_r + (n : Int) * 3 = ((L + 3 * n : Nat) : Int) := by rw [hl]; push_cast; ring
  have e1 : c.p_left_g + (n : Int) * 3 = ((L + 3 * n + 1 : Nat) : Int) := by rw [hlg]; push_cast; ring
  have e2 : c.p_left_b + (n : Int) * 3 = ((L + 3 * n + 2 : Nat) : Int) := by rw [hlb]; push_cast; ring
  have f0 : c.p_right_r + (n : Int) * 3 = ((R + 3 * n : Nat) : Int) := by rw [hr]; push_cast; ring
  have f1 : c.p_right_g + (n : Int) * 3 = ((R + 3 * n + 1 : Nat) : Int) := by rw [hrg]; push_cast; ring
  have f2 : c.p_right_b + (n : Int) * 3 = ((R + 3 * n + 2 : Nat) : Int) := by rw [hrb]; push_cast; ring
  have g0 : c.p_diff_r + (n : Int) * 3 = ((D + 3 * n : Nat) : Int) := by rw [hd]; push_cast; ring
  have g1 : c.p_diff_g + (n : Int) * 3 = ((D + 3 * n + 1 : Nat) : Int) := by rw [hdg]; push_cast; ring
  have g2 : c.p_diff_b + (n : Int) * 3 = ((D + 3 * n + 2 : Nat) : Int) := by rw [hdb]; push_cast; ring
  unfold diff_pixel
  rw [e0, e1, e2, f0, f1, f2, g0, g1, g2]
  rw [loadByte_of_lt left _ (by omega), loadByte_of_lt left _ (by omega),
    loadByte_of_lt left _ (by omega), loadByte_of_lt right _ (by omega),
    loadByte_of_lt right _ (by omega), loadByte_of_lt right _ (by omega)]
  simp only [Option.bind_eq_bind, Option.some_bind]
  rw [storeByte_of_lt _ _ _ (by omega)]
  simp only [Option.some_bind]
  rw [storeByte_of_lt _ _ _ (by simp only [List.length_set]; omega)]
  simp only [Option.some_bind]
  rw [storeByte_of_lt _ _ _ (by simp only [List.length_set]; omega)]
  rfl


/-- The inner loop over `n` columns of one row: it succeeds, keeps the length
of the buffer, stores the difference of the bytes at the same distance from the
three row pointers in `[D, D + 3 * n)`, and leaves every other byte alone. -/
theorem diff_columns_spec (left right : Plane) (c : DiffCursor) (L R D : Nat) (buf : Plane)
    (hl : c.p_left_r = L) (hlg : c.p_left_g = L + 1) (hlb : c.p_left_b = L + 2)
    (hr : c.p_right_r = R) (hrg : c.p_right_g = R + 1) (hrb : c.p_right_b = R + 2)
    (hd : c.p_diff_r = D) (hdg : c.p_diff_g = D + 1) (hdb : c.p_diff_b = D + 2) (n : Nat)
    (hL : L + 3 * n ≤ left.length) (hR : R + 3 * n ≤ right.length)
    (hD : D + 3 * n ≤ buf.length) :
    ∃ buf1, forLoop (diff_pixel left right c) n buf = some buf1 ∧ buf1.length = buf.length ∧
      ∀ j, buf1.getD j 0 =
        if D ≤ j ∧ j < D + 3 * n then
          diffByte (left.getD (L + (j - D)) 0) (right.getD (R + (j - D)) 0)
        else buf.getD j 0 := by
  induction n with
  | zero =>
    refine ⟨buf, rfl, rfl, fun j => ?_⟩
    rw [if_neg (by omega)]
  | succ n ih =>
    obtain ⟨b, hb, hlen, hget⟩ := ih (by omega) (by omega) (by omega)
    have hstep := diff_pixel_eq left right c L R D n b hl hlg hlb hr hrg hrb hd hdg hdb
      (by omega) (by omega) (by omega)
    have hrun : forLoop (diff_pixel left right c) (n + 1) buf
        = diff_pixel left right c (n : Int) b := by
      show (forLoop (diff_pixel left right c) n buf).bind _ = _
      rw [hb, Option.some_bind]
    refine ⟨_, hrun.trans hstep, ?_, fun j => ?_⟩
    · simp only [List.length_set]
      exact hlen
    · rw [getD_set _ _ _ _ (by simp only [List.length_set]; omega),
        getD_set _ _ _ _ (by simp only [List.length_set]; omega),
        getD_set _ _ _ _ (by omega), hget j]
      by_cases h2 : D + 3 * n + 2 = j
      · rw [if_pos h2, if_pos (by omega)]
        have e : j - D = 3 * n + 2 := by omega
        rw [e, ← Nat.add_assoc, ← Nat.add_assoc]
      · rw [if_neg h2]
        by_cases h1 : D + 3 * n + 1 = j
        · rw [if_pos h1, if_pos (by omega)]
          have e : j - D = 3 * n + 1 := by omega
          rw [e, ← Nat.add_assoc, ← Nat.add_assoc]
        · rw [if_neg h1]
          by_cases h0 : D + 3 * n = j
          · rw [if_pos h0, if_pos (by omega)]
            have e : j - D = 3 * n := by omega
            rw [e]
          · rw [if_neg h0]
            by_cases hin : D ≤ j ∧ j < D + 3 * n
            · rw [if_pos hin, if_pos (by omega)]
            · rw [if_neg hin, if_neg (by omega)]


/-- The outer loop after `m` rows: it succeeds, the pointers stand at the start
of row `m`, and rows `0 .. m - 1` hold the differences from column `S` on. -/
theorem diff_rows_spec (W H S pl pr : Nat) (left right diff : Plane)
    (hS : S ≤ W) (hpl : 3 * W ≤ pl) (hpr : 3 * W ≤ pr)
    (hsl : H * pl ≤ left.length) (hsr : H * pr ≤ right.length)
    (hsd : H * (3 * W) ≤ diff.length) (m : Nat) (hm : m ≤ H) :
    ∃ cm, forLoop (diff_row (W : Int) left pl right pr (S : Int)) m (diff_start (S : Int) diff)
        = some cm ∧
      cm.p_left_r = ((3 * S + m * pl : Nat) : Int) ∧
      cm.p_left_g = ((3 * S + m * pl : Nat) : Int) + 1 ∧
      cm.p_left_b = ((3 * S + m * pl : Nat) : Int) + 2 ∧
      cm.p_right_r = ((3 * S + m * pr : Nat) : Int) ∧
      cm.p_right_g = ((3 * S + m * pr : Nat) : Int) + 1 ∧
      cm.p_right_b = ((3 * S + m * pr : Nat) : Int) + 2 ∧
      cm.p_diff_r = ((3 * S + m * (3 * W) : Nat) : Int) ∧
      cm.p_diff_g = ((3 * S + m * (3 * W) : Nat) : Int) + 1 ∧
      cm.p_diff_b = ((3 * S + m * (3 * W) : Nat) : Int) + 2 ∧
      cm.diff.length = diff.length ∧
      ∀ y x c, y < m → S ≤ x → x < W → c < 3 →
        cm.diff.getD (y * (3 * W) + 3 * x + c) 0 =
          diffByte (left.getD (y * pl + 3 * x + c) 0) (right.getD (y * pr + 3 * x + c) 0) := by
  induction m with
  | zero =>
    refine ⟨diff_start (S : Int) diff, rfl, ?_, ?_, ?_, ?_, ?_, ?_, ?_, ?_, ?_, rfl, ?_⟩
    case refine_10 =>
      intro y x c hy
      omega
    all_goals
      simp only [diff_start]
      push_cast
      ring
  | succ m ih =>
    obtain ⟨cm, hrun, a1, a2, a3, b1, b2, b3, d1, d2, d3, hlen, hval⟩ := ih (by omega)
    have el : (m + 1) * pl ≤ H * pl := Nat.mul_le_mul_right pl hm
    have er : (m + 1) * pr ≤ H * pr := Nat.mul_le_mul_right pr hm
    have ed : (m + 1) * (3 * W) ≤ H * (3 * W) := Nat.mul_le_mul_right (3 * W) hm
    have el1 : (m + 1) * pl = m * pl + pl := by ring
    have er1 : (m + 1) * pr = m * pr + pr := by ring
    have ed1 : (m + 1) * (3 * W) = m * (3 * W) + 3 * W := by ring
    obtain ⟨buf1, hcols, hlen1, hget⟩ :=
      diff_columns_spec left right cm (3 * S + m * pl) (3 * S + m * pr) (3 * S + m * (3 * W))
        cm.diff a1 a2 a3 b1 b2 b3 d1 d2 d3 (W - S) (by omega) (by omega) (by omega)
    have hn : ((W : Int) - (S : Int)).toNat = W - S := by omega
    have hstep : forLoop (diff_row (W : Int) left pl right pr (S : Int)) (m + 1)
        (diff_start (S : Int) diff) = diff_row (W : Int) left pl right pr (S : Int) (m : Int) cm := by
      show (forLoop (diff_row (W : Int) left pl right pr (S : Int)) m _).bind _ = _
      rw [hrun, Option.some_bind]
    have hrow : diff_row (W : Int) left pl right pr (S : Int) (m : Int) cm = some
        { p_left_r := cm.p_left_r + pl
          p_left_g := cm.p_left_g + pl
          p_left_b := cm.p_left_b + pl
          p_right_r := cm.p_right_r + pr
          p_right_g := cm.p_right_g + pr
          p_right_b := cm.p_right_b + pr
          p_diff_r := cm.p_diff_r + (W : Int) * 3
          p_diff_g := cm.p_diff_g + (W : Int) * 3
          p_diff_b := cm.p_diff_b + (W : Int) * 3
          diff := buf1 } := by
      unfold diff_row
      rw [hn, hcols]
      rfl
    refine ⟨_, hstep.trans hrow, ?_, ?_, ?_, ?_, ?_, ?_, ?_, ?_, ?_, ?_, ?_⟩
    · show cm.p_left_r + (pl : Int) = _
      rw [a1]; push_cast; ring
    · show cm.p_left_g + (pl : Int) = _
      rw [a2]; push_cast; ring
    · show cm.p_left_b + (pl : Int) = _
      rw [a3]; push_cast; ring
    · show cm.p_right_r + (pr : Int) = _
      rw [b1]; push_cast; ring
    · show cm.p_right_g + (pr : Int) = _
      rw [b2]; push_cast; ring
    · show cm.p_right_b + (pr : Int) = _
      rw [b3]; push_cast; ring
    · show cm.p_diff_r + (W : Int) * 3 = _
      rw [d1]; push_cast; ring
    · show cm.p_diff_g + (W : Int) * 3 = _
      rw [d2]; push_cast; ring
    · show cm.p_diff_b + (W : Int) * 3 = _
      rw [d3]; push_cast; ring
    · show buf1.length = diff.length
      rw [hlen1, hlen]
    · intro y x c hy hSx hxW hc
      show buf1.getD (y * (3 * W) + 3 * x + c) 0 = _
      rw [hget]
      by_cases hym : y < m
      · have ey : (y + 1) * (3 * W) ≤ m * (3 * W) := Nat.mul_le_mul_right (3 * W) hym
        have ey1 : (y + 1) * (3 * W) = y * (3 * W) + 3 * W := by ring
        rw [if_neg (by omega)]
        exact hval y x c hym hSx hxW hc
      · have hy_eq : y = m := by omega
        subst hy_eq
        rw [if_pos (by omega)]
        have i1 : 3 * S + y * pl + (y * (3 * W) + 3 * x + c - (3 * S + y * (3 * W)))
            = y * pl + 3 * x + c := by omega
        have i2 : 3 * S + y * pr + (y * (3 * W) + 3 * x + c - (3 * S + y * (3 * W)))
            = y * pr + 3 * x + c := by omega
        rw [i1, i2]


theorem clampIntToByte_abs (a : Int) :
    ((clampIntToByte (|a| * amplification) : Nat) : Int) = min 255 (2 * |a|) := by
  have h := abs_nonneg a
  generalize |a| = t at h
  unfold clampIntToByte clampIntToByteRange amplification
  by_cases h1 : t * 2 > 255
  · rw [if_pos h1]
    omega
  · rw [if_neg h1, if_neg (by omega)]
    omega

/-- Claim C1. For source planes whose pitches are at least `3 * video_width_` (and
that hold `video_height_` rows of that pitch), a diff buffer of
`video_width_ * video_height_ * 3` bytes and `0 ≤ split_x ≤ video_width_`,
`update_difference` returns, and for every row `y`, column `x ≥ split_x` and
channel `c` the diff byte at `y * (3 * video_width_) + 3 * x + c` is
`min 255 (2 * |left - right|)` of the source bytes at
`y * pitch + 3 * x + c`; `(10,10,10)` against `(5,5,5)` gives `(10,10,10)` and
`(200,0,0)` against `(0,0,0)` gives `(255,0,0)`. -/
theorem update_difference_spec (video_width_ video_height_ : Int)
    (diff_buffer_ plane_left plane_right : Plane) (pitch_left pitch_right : Nat)
    (split_x : Int)
    (hpl : 3 * video_width_ ≤ pitch_left) (hpr : 3 * video_width_ ≤ pitch_right)
    (hsl : video_height_ * pitch_left ≤ plane_left.length)
    (hsr : video_height_ * pitch_right ≤ plane_right.length)
    (hsd : video_width_ * video_height_ * 3 ≤ diff_buffer_.length)
    (h0 : 0 ≤ split_x) (h1 : split_x ≤ video_width_) :
    (∃ diff1,
      update_difference video_width_ video_height_ diff_buffer_ plane_left pitch_left
        plane_right pitch_right split_x = some diff1 ∧
      diff1.length = diff_buffer_.length ∧
      ∀ y x c : Nat, (y : Int) < video_height_ → split_x ≤ x → (x : Int) < video_width_ →
        c < 3 →
        ((diff1.getD (y * (3 * video_width_.toNat) + 3 * x + c) 0 : Nat) : Int) =
          min 255 (2 * |((plane_left.getD (y * pitch_left + 3 * x + c) 0 : Nat) : Int)
            - ((plane_right.getD (y * pitch_right + 3 * x + c) 0 : Nat) : Int)|)) ∧
    update_difference 1 1 [0, 0, 0] [10, 10, 10] 3 [5, 5, 5] 3 0 = some [10, 10, 10] ∧
    update_difference 1 1 [0, 0, 0] [200, 0, 0] 3 [0, 0, 0] 3 0 = some [255, 0, 0] := by
  refine ⟨?_, by decide, by decide⟩
  obtain ⟨S, rfl⟩ := Int.eq_ofNat_of_zero_le h0
  obtain ⟨W, rfl⟩ := Int.eq_ofNat_of_zero_le (le_trans h0 h1)
  have hSW : S ≤ W := by omega
  have hH : ((video_height_.toNat : Nat) : Int) * (pitch_left : Int) ≤ plane_left.length := by
    rcases le_or_lt 0 video_height_ with h | h
    · rw [Int.toNat_of_nonneg h]; exact hsl
    · rw [Int.toNat_eq_zero.mpr h.le]; simp
  have hH2 : ((video_height_.toNat : Nat) : Int) * (pitch_right : Int) ≤ plane_right.length := by
    rcases le_or_lt 0 video_height_ with h | h
    · rw [Int.toNat_of_nonneg h]; exact hsr
    · rw [Int.toNat_eq_zero.mpr h.le]; simp
  have hH3 : ((video_height_.toNat : Nat) : Int) * (3 * (W : Int)) ≤ diff_buffer_.length := by
    rcases le_or_lt 0 video_height_ with h | h
    · rw [Int.toNat_of_nonneg h]; linarith
    · rw [Int.toNat_eq_zero.mpr h.le]; simp
  obtain ⟨cm, hrun, -, -, -, -, -, -, -, -, -, hlen, hval⟩ :=
    diff_rows_spec W video_height_.toNat S pitch_left pitch_right plane_left plane_right
      diff_buffer_ hSW (by exact_mod_cast hpl) (by exact_mod_cast hpr)
      (by exact_mod_cast hH) (by exact_mod_cast hH2) (by exact_mod_cast hH3)
      video_height_.toNat le_rfl
  refine ⟨cm.diff, ?_, hlen, ?_⟩
  · unfold update_difference
    rw [hrun]
    rfl
  · intro y x c hy hx hxW hc
    rw [Int.toNat_ofNat, hval y x c (by omega) (by omega) (by omega) hc]
    exact clampIntToByte_abs _

/-- The C1 theorem at a 2 x 2 frame with pitches 8 and 6 and `split_x = 1`. -/
theorem update_difference_spec_witness :
    ((3 * (2 : Int) ≤ (8 : Nat)) ∧ (3 * (2 : Int) ≤ (6 : Nat)) ∧ (0 : Int) ≤ 1 ∧ (1 : Int) ≤ 2) ∧
    ((∃ diff1,
      update_difference 2 2 (List.replicate 12 7)
        [1, 2, 3, 4, 5, 6, 0, 0, 10, 20, 30, 40, 50, 60, 0, 0] 8
        [0, 0, 0, 0, 0, 0, 200, 200, 200, 100, 100, 100] 6 1 = some diff1 ∧
      diff1.length = (List.replicate 12 7).length ∧
      ∀ y x c : Nat, (y : Int) < 2 → (1 : Int) ≤ x → (x : Int) < 2 → c < 3 →
        ((diff1.getD (y * (3 * (2 : Int).toNat) + 3 * x + c) 0 : Nat) : Int) =
          min 255 (2 * |((([1, 2, 3, 4, 5, 6, 0, 0, 10, 20, 30, 40, 50, 60, 0, 0] : Plane).getD
              (y * 8 + 3 * x + c) 0 : Nat) : Int)
            - (((([0, 0, 0, 0, 0, 0, 200, 200, 200, 100, 100, 100] : Plane).getD
              (y * 6 + 3 * x + c) 0 : Nat) : Int))|)) ∧
    update_difference 1 1 [0, 0, 0] [10, 10, 10] 3 [5, 5, 5] 3 0 = some [10, 10, 10] ∧
    update_difference 1 1 [0, 0, 0] [200, 0, 0] 3 [0, 0, 0] 3 0 = some [255, 0, 0]) :=
  ⟨by decide,
    update_difference_spec 2 2 (List.replicate 12 7)
      [1, 2, 3, 4, 5, 6, 0, 0, 10, 20, 30, 40, 50, 60, 0, 0]
      [0, 0, 0, 0, 0, 0, 200, 200, 200, 100, 100, 100] 8 6 1
      (by decide) (by decide) (by decide) (by decide) (by decide) (by decide) (by decide)⟩


/-! ## The zoom transform and the split -/

/-- Claim C2. `get_zoom` returns `1 + zoom_factor_` when `zoom_factor_ ≥ 0` and
`1 / (1 - zoom_factor_)` when `zoom_factor_ < 0`; `0.2` gives `1.2` and `-0.2`
gives `1 / 1.2`. -/
theorem get_zoom_spec (s : Display) :
    (s.zoom_factor_ ≥ 0 → get_zoom s = 1 + s.zoom_factor_) ∧
    (s.zoom_factor_ < 0 → get_zoom s = 1 / (1 - s.zoom_factor_)) ∧
    (s.zoom_factor_ = 2 / 10 → get_zoom s = 12 / 10) ∧
    (s.zoom_factor_ = -(2 / 10) → get_zoom s = 1 / (12 / 10)) := by
  refine ⟨fun h => ?_, fun h => ?_, fun h => ?_, fun h => ?_⟩
  · unfold get_zoom
    rw [if_pos h]
  · unfold get_zoom
    rw [if_neg (not_le.mpr h)]
  · unfold get_zoom
    rw [h]
    norm_num
  · unfold get_zoom
    rw [h]
    norm_num

/-- The C2 theorem at the state a fresh 8 x 6 display reaches after one
zoom-out step (`zoom_factor_ = -0.2`). -/
theorem get_zoom_spec_witness :
    (key_down (Display.construct 8 6 16 12 1 2 100 20 120 20 0) SDLK_MINUS).zoom_factor_
        = -(2 / 10) ∧
      get_zoom (key_down (Display.construct 8 6 16 12 1 2 100 20 120 20 0) SDLK_MINUS)
        = 1 / (12 / 10) :=
  ⟨by simp [key_down, Display.construct],
    (get_zoom_spec (key_down (Display.construct 8 6 16 12 1 2 100 20 120 20 0)
      SDLK_MINUS)).2.2.2 (by simp [key_down, Display.construct])⟩

/-- Claim C3. With `video_width_ ≥ 0` and `video_height_ ≥ 0`, the video-space coordinate of the pointer computed by `refresh` lies in
`[0, video_width_] × [0, video_height_]`, whatever the pointer, zoom, center and
window size. -/
theorem mouse_video_in_frame (s : Display) (hw : 0 ≤ s.video_width_)
    (hh : 0 ≤ s.video_height_) :
    0 ≤ mouse_video_x s ∧ mouse_video_x s ≤ s.video_width_ ∧
    0 ≤ mouse_video_y s ∧ mouse_video_y s ≤ s.video_height_ := by
  unfold mouse_video_x mouse_video_y
  refine ⟨?_, ?_, ?_, ?_⟩
  · exact le_min (le_max_left _ _) hw
  · exact min_le_right _ _
  · exact le_min (le_max_left _ _) hh
  · exact min_le_right _ _

/-- The C3 theorem at a fresh 8 x 6 display whose pointer was dragged far
outside the window. -/
theorem mouse_video_in_frame_witness :
    (0 : Int) ≤ 8 ∧ (0 : Int) ≤ 6 ∧
    0 ≤ mouse_video_x
      { Display.construct 8 6 16 12 1 2 100 20 120 20 0 with
        mouse_x := 100000, mouse_y := -100000 } ∧
    mouse_video_x
      { Display.construct 8 6 16 12 1 2 100 20 120 20 0 with
        mouse_x := 100000, mouse_y := -100000 } ≤ 8 ∧
    0 ≤ mouse_video_y
      { Display.construct 8 6 16 12 1 2 100 20 120 20 0 with
        mouse_x := 100000, mouse_y := -100000 } ∧
    mouse_video_y
      { Display.construct 8 6 16 12 1 2 100 20 120 20 0 with
        mouse_x := 100000, mouse_y := -100000 } ≤ 6 :=
  ⟨by decide, by decide,
    mouse_video_in_frame
      { Display.construct 8 6 16 12 1 2 100 20 120 20 0 with
        mouse_x := 100000, mouse_y := -100000 } (by decide) (by decide)⟩

/-! ## The event loop -/

theorem poll_events_cons (s : Display) (e : SDL_State × SDL_Event)
    (events : List (SDL_State × SDL_Event)) :
    poll_events s (e :: events) = poll_events (handle_event s e.1 e.2) events := rfl

/-- Claim C5. Whatever `seek_relative_`, `seek_from_start_` and
`frame_offset_delta_` held before, a call of `input` that drains an empty event
queue leaves them at `0`, `false` and `0`. -/
theorem input_empty_resets (s : Display) (sdl : SDL_State) :
    (input s sdl []).seek_relative_ = 0 ∧
    (input s sdl []).seek_from_start_ = false ∧
    (input s sdl []).frame_offset_delta_ = 0 :=
  ⟨rfl, rfl, rfl⟩

/-- The frame-step contribution of one event. -/
theorem handle_event_frame_offset (s : Display) (sdl : SDL_State) (ev : SDL_Event) :
    (handle_event s sdl ev).frame_offset_delta_ =
      s.frame_offset_delta_ + (if ev = SDL_KEYDOWN SDLK_a then 1 else 0)
        - (if ev = SDL_KEYDOWN SDLK_d then 1 else 0) := by
  cases ev with
  | SDL_MOUSEBUTTONDOWN button =>
    simp only [handle_event, mouse_button_down]
    split_ifs <;> simp
  | SDL_MOUSEBUTTONUP button =>
    simp only [handle_event, mouse_button_up]
    split_ifs <;> simp
  | SDL_MOUSEWHEEL y =>
    simp only [handle_event, mouse_wheel]
    split_ifs <;> simp
  | SDL_KEYDOWN sym => cases sym <;> simp [handle_event, key_down]
  | SDL_QUIT => simp [handle_event]
  | other => simp [handle_event]

theorem poll_events_frame_offset (events : List (SDL_State × SDL_Event)) (s : Display) :
    (poll_events s events).frame_offset_delta_ =
      s.frame_offset_delta_ + ((events.map Prod.snd).count (SDL_KEYDOWN SDLK_a) : Int)
        - ((events.map Prod.snd).count (SDL_KEYDOWN SDLK_d) : Int) := by
  induction events generalizing s with
  | nil => simp [poll_events]
  | cons e events ih =>
    rw [poll_events_cons, ih, handle_event_frame_offset, List.map_cons, List.count_cons,
      List.count_cons]
    by_cases ha : e.2 = SDL_KEYDOWN SDLK_a
    · simp [ha]
      ring
    · by_cases hd : e.2 = SDL_KEYDOWN SDLK_d
      · simp [hd]
        ring
      · simp [ha, hd]

/-- Claim C6. For every prior state and every sequence of events drained by one
call of `input`, the resulting `frame_offset_delta_` is the number of `a`
key-downs minus the number of `d` key-downs in the sequence, whatever it held
before; two `a` key-downs in one poll give `2`. -/
theorem input_frame_offset_delta (s : Display) (sdl : SDL_State)
    (events : List (SDL_State × SDL_Event)) :
    (input s sdl events).frame_offset_delta_ =
        ((events.map Prod.snd).count (SDL_KEYDOWN SDLK_a) : Int)
          - ((events.map Prod.snd).count (SDL_KEYDOWN SDLK_d) : Int) ∧
    ∀ e1 e2 : SDL_State,
      (input s sdl [(e1, SDL_KEYDOWN SDLK_a), (e2, SDL_KEYDOWN SDLK_a)]).frame_offset_delta_
        = 2 := by
  have h0 : (input_begin s sdl).frame_offset_delta_ = 0 := rfl
  constructor
  · unfold input
    rw [poll_events_frame_offset, h0, zero_add]
  · intro e1 e2
    unfold input
    rw [poll_events_frame_offset, h0]
    simp

/-- The seek contribution of one key-down. -/
theorem key_down_seek (s : Display) (sym : SDL_Keycode) :
    (key_down s sym).seek_relative_ = s.seek_relative_ + spec_seek_amount sym ∧
    (key_down s sym).seek_from_start_ = s.seek_from_start_ := by
  cases sym <;> simp [key_down, spec_seek_amount] <;> ring

theorem poll_key_downs_seek (keys : List (SDL_State × SDL_Keycode)) (s : Display) :
    (poll_events s (keys.map fun k => (k.1, SDL_KEYDOWN k.2))).seek_relative_ =
        s.seek_relative_ + (keys.map fun k => spec_seek_amount k.2).sum ∧
    (poll_events s (keys.map fun k => (k.1, SDL_KEYDOWN k.2))).seek_from_start_ =
        s.seek_from_start_ := by
  induction keys generalizing s with
  | nil => simp [poll_events]
  | cons k keys ih =>
    rw [List.map_cons, poll_events_cons]
    obtain ⟨h1, h2⟩ := ih (handle_event s k.1 (SDL_KEYDOWN k.2))
    obtain ⟨k1, k2⟩ := key_down_seek s k.2
    have e : handle_event s k.1 (SDL_KEYDOWN k.2) = key_down s k.2 := rfl
    rw [h1, h2, e, k1, k2, List.map_cons, List.sum_cons]
    exact ⟨by ring, rfl⟩

/-- Claim C7. For every prior state and every sequence of key-down events drained
by one call of `input`, the resulting `seek_relative_` is the sum of the per-key
amounts (left -1, right +1, down -10, up +10, page-down -600, page-up +600,
other keys 0) and `seek_from_start_` is `false`. -/
theorem input_seek_relative (s : Display) (sdl : SDL_State)
    (keys : List (SDL_State × SDL_Keycode)) :
    (input s sdl (keys.map fun k => (k.1, SDL_KEYDOWN k.2))).seek_relative_ =
        (keys.map fun k => spec_seek_amount k.2).sum ∧
    (input s sdl (keys.map fun k => (k.1, SDL_KEYDOWN k.2))).seek_from_start_ = false := by
  have h0 : (input_begin s sdl).seek_relative_ = 0 := rfl
  have h1 : (input_begin s sdl).seek_from_start_ = false := rfl
  obtain ⟨a, b⟩ := poll_key_downs_seek keys (input_begin s sdl)
  unfold input
  rw [a, b, h0, h1, zero_add]
  exact ⟨rfl, rfl⟩

/-- One swap key-down exchanges the labels and flips the flag; a second one
gives back the state it started from. -/
theorem key_down_swap_twice (s : Display) : key_down (key_down s SDLK_s) SDLK_s = s := by
  cases s
  simp [key_down]

theorem poll_swaps_succ_succ (s : Display) (a b : SDL_State) (sdls : List SDL_State) :
    poll_events s ((a :: b :: sdls).map fun e => (e, SDL_KEYDOWN SDLK_s)) =
      poll_events s (sdls.map fun e => (e, SDL_KEYDOWN SDLK_s)) := by
  simp only [List.map_cons, poll_events_cons, handle_event]
  rw [key_down_swap_twice]

theorem poll_swaps_parity (n : Nat) :
    ∀ (sdls : List SDL_State) (s : Display), sdls.length = n →
      poll_events s (sdls.map fun e => (e, SDL_KEYDOWN SDLK_s)) =
        if n % 2 = 1 then key_down s SDLK_s else s := by
  induction n using Nat.strong_induction_on with
  | _ n ih =>
    intro sdls s hlen
    match sdls, hlen with
    | [], hlen =>
      subst hlen
      rfl
    | [a], hlen =>
      subst hlen
      rfl
    | a :: b :: rest, hlen =>
      rw [poll_swaps_succ_succ]
      have hr : rest.length = n - 2 := by
        simp only [List.length_cons] at hlen
        omega
      have hn : 2 ≤ n := by
        simp only [List.length_cons] at hlen
        omega
      rw [ih (n - 2) (by omega) rest s hr]
      have hmod : (n - 2) % 2 = n % 2 := by omega
      rw [hmod]

/-- Claim C9. After `n` swap (`s`) key-downs the `swap_left_right_` flag and the
assignment of the two label textures with their widths and heights are
exchanged relative to the start when `n` is odd and equal to the start when `n`
is even; two swap key-downs restore the state. -/
theorem swap_key_parity (s : Display) (sdls : List SDL_State) :
    (sdls.length % 2 = 1 →
      (poll_events s (sdls.map fun e => (e, SDL_KEYDOWN SDLK_s))).swap_left_right_
          = !s.swap_left_right_ ∧
      (poll_events s (sdls.map fun e => (e, SDL_KEYDOWN SDLK_s))).left_text_texture
          = s.right_text_texture ∧
      (poll_events s (sdls.map fun e => (e, SDL_KEYDOWN SDLK_s))).right_text_texture
          = s.left_text_texture ∧
      (poll_events s (sdls.map fun e => (e, SDL_KEYDOWN SDLK_s))).left_text_width
          = s.right_text_width ∧
      (poll_events s (sdls.map fun e => (e, SDL_KEYDOWN SDLK_s))).right_text_width
          = s.left_text_width ∧
      (poll_events s (sdls.map fun e => (e, SDL_KEYDOWN SDLK_s))).left_text_height
          = s.right_text_height ∧
      (poll_events s (sdls.map fun e => (e, SDL_KEYDOWN SDLK_s))).right_text_height
          = s.left_text_height) ∧
    (sdls.length % 2 = 0 →
      poll_events s (sdls.map fun e => (e, SDL_KEYDOWN SDLK_s)) = s) ∧
    (∀ a b : SDL_State,
      handle_event (handle_event s a (SDL_KEYDOWN SDLK_s)) b (SDL_KEYDOWN SDLK_s) = s) := by
  refine ⟨fun h => ?_, fun h => ?_, fun a b => ?_⟩
  · rw [poll_swaps_parity sdls.length sdls s rfl, if_pos h]
    exact ⟨rfl, rfl, rfl, rfl, rfl, rfl, rfl⟩
  · rw [poll_swaps_parity sdls.length sdls s rfl, if_neg (by omega)]
  · exact key_down_swap_twice s

/-- The C9 theorem at a fresh display after three swap key-downs: the labels
(textures 1 and 2, widths 100 and 120) are exchanged. -/
theorem swap_key_parity_witness :
    ([⟨0, 0, 0⟩, ⟨1, 1, 0⟩, ⟨2, 2, 0⟩] : List SDL_State).length % 2 = 1 ∧
    (poll_events (Display.construct 8 6 16 12 1 2 100 20 120 20 0)
      (([⟨0, 0, 0⟩, ⟨1, 1, 0⟩, ⟨2, 2, 0⟩] : List SDL_State).map
        fun e => (e, SDL_KEYDOWN SDLK_s))).swap_left_right_ = true ∧
    (poll_events (Display.construct 8 6 16 12 1 2 100 20 120 20 0)
      (([⟨0, 0, 0⟩, ⟨1, 1, 0⟩, ⟨2, 2, 0⟩] : List SDL_State).map
        fun e => (e, SDL_KEYDOWN SDLK_s))).left_text_texture = 2 ∧
    (poll_events (Display.construct 8 6 16 12 1 2 100 20 120 20 0)
      (([⟨0, 0, 0⟩, ⟨1, 1, 0⟩, ⟨2, 2, 0⟩] : List SDL_State).map
        fun e => (e, SDL_KEYDOWN SDLK_s))).left_text_width = 120 :=
  have h := (swap_key_parity (Display.construct 8 6 16 12 1 2 100 20 120 20 0)
    [⟨0, 0, 0⟩, ⟨1, 1, 0⟩, ⟨2, 2, 0⟩]).1 (by decide)
  ⟨by decide, h.1, h.2.1, h.2.2.2.1⟩

/-- Claim C10. Whatever the prior pan, the keypad-5 key-down sets
`window_center_pixel_x_ = video_width_ / 2` and
`window_center_pixel_y_ = video_height_ / 2` (`int` division). -/
theorem keypad_5_centers (s : Display) (sdl : SDL_State) :
    (handle_event s sdl (SDL_KEYDOWN SDLK_KP_5)).window_center_pixel_x_
      = Int.tdiv s.video_width_ 2 ∧
    (handle_event s sdl (SDL_KEYDOWN SDLK_KP_5)).window_center_pixel_y_
      = Int.tdiv s.video_height_ 2 :=
  ⟨rfl, rfl⟩


/-! ## Lemmas on the conversions and on the zoom -/

theorem truncToInt_intCast (n : Int) : truncToInt (n : ℚ) = n := by
  unfold truncToInt
  split_ifs
  · exact Int.floor_intCast n
  · exact Int.ceil_intCast n

theorem truncToInt_le_of_nonneg (q : ℚ) (h : 0 ≤ q) : ((truncToInt q : Int) : ℚ) ≤ q := by
  unfold truncToInt
  rw [if_pos h]
  exact Int.floor_le q

theorem truncToInt_nonneg_of_nonneg (q : ℚ) (h : 0 ≤ q) : 0 ≤ truncToInt q := by
  unfold truncToInt
  rw [if_pos h]
  exact Int.floor_nonneg.mpr h

theorem truncToInt_nonpos (q : ℚ) (h : q ≤ 0) : truncToInt q ≤ 0 := by
  unfold truncToInt
  split_ifs with h0
  · have e : q = 0 := le_antisymm h h0
    rw [e]
    simp
  · exact Int.ceil_le.mpr (by simpa using h)

theorem pos_of_truncToInt_pos (q : ℚ) (h : 0 < truncToInt q) : 0 < q := by
  by_contra hq
  exact absurd (truncToInt_nonpos q (not_lt.mp hq)) (not_le.mpr h)

theorem get_zoom_pos (s : Display) : 0 < get_zoom s := by
  unfold get_zoom
  split_ifs with h
  · linarith
  · have h1 : 0 < 1 - s.zoom_factor_ := by linarith [not_le.mp h]
    positivity

/-! ## The zoom as a function of the zoom factor -/

/-- Claim C16. `get_zoom` is strictly increasing in `zoom_factor_`, its two
branches agree at `zoom_factor_ = 0` with value `1`, and it is continuous at
`0`: `|get_zoom - 1| ≤ |zoom_factor_|`. -/
theorem get_zoom_strict_mono (s1 s2 : Display) :
    (s1.zoom_factor_ < s2.zoom_factor_ → get_zoom s1 < get_zoom s2) ∧
    (s1.zoom_factor_ = 0 → get_zoom s1 = 1 ∧ 1 + s1.zoom_factor_ = 1 ∧
      1 / (1 - s1.zoom_factor_) = 1) ∧
    |get_zoom s1 - 1| ≤ |s1.zoom_factor_| := by
  refine ⟨fun h => ?_, fun h => ?_, ?_⟩
  · unfold get_zoom
    by_cases h1 : s1.zoom_factor_ ≥ 0
    · have h2 : s2.zoom_factor_ ≥ 0 := le_trans h1 h.le
      rw [if_pos h1, if_pos h2]
      linarith
    · have p1 : 0 < 1 - s1.zoom_factor_ := by linarith [not_le.mp h1]
      rw [if_neg h1]
      by_cases h2 : s2.zoom_factor_ ≥ 0
      · rw [if_pos h2]
        have : 1 / (1 - s1.zoom_factor_) < 1 := by
          rw [div_lt_one p1]
          linarith [not_le.mp h1]
        linarith
      · have p2 : 0 < 1 - s2.zoom_factor_ := by linarith [not_le.mp h2]
        rw [if_neg h2]
        exact one_div_lt_one_div_of_lt p2 (by linarith)
  · unfold get_zoom
    rw [h]
    norm_num
  · unfold get_zoom
    by_cases h1 : s1.zoom_factor_ ≥ 0
    · rw [if_pos h1]
      simp
    · have hz : s1.zoom_factor_ < 0 := not_le.mp h1
      have p1 : 0 < 1 - s1.zoom_factor_ := by linarith
      rw [if_neg h1]
      have e : 1 / (1 - s1.zoom_factor_) - 1 = s1.zoom_factor_ / (1 - s1.zoom_factor_) := by
        field_simp
      rw [e, abs_div, abs_of_pos p1]
      rw [div_le_iff₀ p1]
      have : 0 ≤ |s1.zoom_factor_| := abs_nonneg _
      nlinarith

/-- The C16 theorem at a fresh display and the state after one zoom-in step:
zoom `1` is below zoom `1.2`. -/
theorem get_zoom_strict_mono_witness :
    (Display.construct 8 6 16 12 1 2 100 20 120 20 0).zoom_factor_
      < (key_down (Display.construct 8 6 16 12 1 2 100 20 120 20 0) SDLK_PLUS).zoom_factor_ ∧
    get_zoom (Display.construct 8 6 16 12 1 2 100 20 120 20 0)
      < get_zoom (key_down (Display.construct 8 6 16 12 1 2 100 20 120 20 0) SDLK_PLUS) :=
  ⟨by simp [key_down, Display.construct],
    (get_zoom_strict_mono (Display.construct 8 6 16 12 1 2 100 20 120 20 0)
      (key_down (Display.construct 8 6 16 12 1 2 100 20 120 20 0) SDLK_PLUS)).1
      (by simp [key_down, Display.construct])⟩

/-- Claim C17. A wheel event with `y > 0` and the plus and keypad-plus
key-downs add exactly `0.2` to `zoom_factor_`, a wheel event with `y < 0` and
the minus and keypad-minus key-downs subtract exactly `0.2`, a wheel event with
`y = 0` changes nothing, and no other member (view center, toggles) changes. -/
theorem zoom_step_events (s : Display) (sdl : SDL_State) (y : Int) :
    (0 < y → handle_event s sdl (SDL_MOUSEWHEEL y)
      = { s with zoom_factor_ := s.zoom_factor_ + 2 / 10 }) ∧
    (y < 0 → handle_event s sdl (SDL_MOUSEWHEEL y)
      = { s with zoom_factor_ := s.zoom_factor_ - 2 / 10 }) ∧
    (y = 0 → handle_event s sdl (SDL_MOUSEWHEEL y) = s) ∧
    handle_event s sdl (SDL_KEYDOWN SDLK_PLUS)
      = { s with zoom_factor_ := s.zoom_factor_ + 2 / 10 } ∧
    handle_event s sdl (SDL_KEYDOWN SDLK_KP_PLUS)
      = { s with zoom_factor_ := s.zoom_factor_ + 2 / 10 } ∧
    handle_event s sdl (SDL_KEYDOWN SDLK_MINUS)
      = { s with zoom_factor_ := s.zoom_factor_ - 2 / 10 } ∧
    handle_event s sdl (SDL_KEYDOWN SDLK_KP_MINUS)
      = { s with zoom_factor_ := s.zoom_factor_ - 2 / 10 } := by
  refine ⟨fun h => ?_, fun h => ?_, fun h => ?_, rfl, rfl, rfl, rfl⟩
  · simp only [handle_event, mouse_wheel]
    rw [if_pos h]
  · simp only [handle_event, mouse_wheel]
    rw [if_neg (by omega), if_pos h]
  · simp only [handle_event, mouse_wheel]
    rw [if_neg (by omega), if_neg (by omega)]

/-- The C17 theorem at a fresh display: a wheel event with `y = 3` moves
`zoom_factor_` from `0` to `0.2` and keeps the center at `(4, 3)`. -/
theorem zoom_step_events_witness :
    (0 : Int) < 3 ∧
    (handle_event (Display.construct 8 6 16 12 1 2 100 20 120 20 0) ⟨0, 0, 0⟩
      (SDL_MOUSEWHEEL 3)).zoom_factor_ = 2 / 10 ∧
    (handle_event (Display.construct 8 6 16 12 1 2 100 20 120 20 0) ⟨0, 0, 0⟩
      (SDL_MOUSEWHEEL 3)).window_center_pixel_x_ = 4 :=
  have h := (zoom_step_events (Display.construct 8 6 16 12 1 2 100 20 120 20 0) ⟨0, 0, 0⟩ 3).1
    (by decide)
  ⟨by decide, by rw [h]; simp [Display.construct], by rw [h]; decide⟩

theorem truncToInt_mono (a b : ℚ) (h : a ≤ b) : truncToInt a ≤ truncToInt b := by
  unfold truncToInt
  by_cases ha : 0 ≤ a
  · rw [if_pos ha, if_pos (le_trans ha h)]
    exact Int.floor_le_floor h
  · rw [if_neg ha]
    have ha1 : a ≤ 0 := (not_le.mp ha).le
    by_cases hb : 0 ≤ b
    · rw [if_pos hb]
      have h1 : ⌈a⌉ ≤ 0 := Int.ceil_le.mpr (by simpa using ha1)
      have h2 : 0 ≤ ⌊b⌋ := Int.floor_nonneg.mpr hb
      omega
    · rw [if_neg hb]
      exact Int.ceil_le_ceil h

/-- What holds of `src_zoomed_area` on the code: the offsets are clamped into
the frame and the far edges do not pass it; the extents are non-negative when
the center is not negative. -/
theorem src_zoomed_area_clamps (s : Display) (hvw : 0 ≤ s.video_width_)
    (hvh : 0 ≤ s.video_height_) (hw : 0 < s.window_width_) (hh : 0 < s.window_height_) :
    (0 ≤ (src_zoomed_area s).x ∧
      (src_zoomed_area s).x + (src_zoomed_area s).w ≤ s.video_width_ ∧
      (0 ≤ s.window_center_pixel_x_ → 0 ≤ (src_zoomed_area s).w)) ∧
    (0 ≤ (src_zoomed_area s).y ∧
      (src_zoomed_area s).y + (src_zoomed_area s).h ≤ s.video_height_ ∧
      (0 ≤ s.window_center_pixel_y_ → 0 ≤ (src_zoomed_area s).h)) := by
  have hz := get_zoom_pos s
  have hwq : (0 : ℚ) < (s.window_width_ : ℚ) := by exact_mod_cast hw
  have hhq : (0 : ℚ) < (s.window_height_ : ℚ) := by exact_mod_cast hh
  have h1 : 0 < (s.window_width_ : ℚ) / get_zoom s / 2 := by positivity
  have h2 : 0 < (s.window_height_ : ℚ) / get_zoom s / 2 := by positivity
  simp only [src_zoomed_area, src_x_offset, src_y_offset]
  refine ⟨⟨by omega, by omega, fun hc => ?_⟩, ⟨by omega, by omega, fun hc => ?_⟩⟩
  · have hcq : (0 : ℚ) ≤ (s.window_center_pixel_x_ : ℚ) := by exact_mod_cast hc
    have hR := truncToInt_nonneg_of_nonneg
      ((s.window_center_pixel_x_ : ℚ) + (s.window_width_ : ℚ) / get_zoom s / 2) (by linarith)
    have hLR := truncToInt_mono
      ((s.window_center_pixel_x_ : ℚ) - (s.window_width_ : ℚ) / get_zoom s / 2)
      ((s.window_center_pixel_x_ : ℚ) + (s.window_width_ : ℚ) / get_zoom s / 2) (by linarith)
    omega
  · have hcq : (0 : ℚ) ≤ (s.window_center_pixel_y_ : ℚ) := by exact_mod_cast hc
    have hR := truncToInt_nonneg_of_nonneg
      ((s.window_center_pixel_y_ : ℚ) + (s.window_height_ : ℚ) / get_zoom s / 2) (by linarith)
    have hLR := truncToInt_mono
      ((s.window_center_pixel_y_ : ℚ) - (s.window_height_ : ℚ) / get_zoom s / 2)
      ((s.window_center_pixel_y_ : ℚ) + (s.window_height_ : ℚ) / get_zoom s / 2) (by linarith)
    omega

/-- Claim C13, on the code: on a fresh 8 x 6 display in a 200 x 100 window a
right-drag from `(0, 50)` to `(150, 50)` moves the center to `(-146, 3)`, and
`refresh` then computes a source rectangle with `x = 0` and the negative extent
`w = -46`. -/
theorem src_zoomed_area_negative_extent :
    (run_polls (Display.construct 8 6 200 100 1 2 100 20 120 20 0)
      [(⟨0, 50, 0⟩, [(⟨0, 50, 0⟩, SDL_MOUSEBUTTONDOWN SDL_BUTTON_RIGHT)]),
        (⟨150, 50, 0⟩, [])]).window_center_pixel_x_ = -146 ∧
    (src_zoomed_area (run_polls (Display.construct 8 6 200 100 1 2 100 20 120 20 0)
      [(⟨0, 50, 0⟩, [(⟨0, 50, 0⟩, SDL_MOUSEBUTTONDOWN SDL_BUTTON_RIGHT)]),
        (⟨150, 50, 0⟩, [])])).x = 0 ∧
    (src_zoomed_area (run_polls (Display.construct 8 6 200 100 1 2 100 20 120 20 0)
      [(⟨0, 50, 0⟩, [(⟨0, 50, 0⟩, SDL_MOUSEBUTTONDOWN SDL_BUTTON_RIGHT)]),
        (⟨150, 50, 0⟩, [])])).w = -46 := by
  have e1 : truncToInt (-146 : ℚ) = -146 := by simpa using truncToInt_intCast (-146)
  have e2 : truncToInt (-246 : ℚ) = -246 := by simpa using truncToInt_intCast (-246)
  have e3 : truncToInt (-46 : ℚ) = -46 := by simpa using truncToInt_intCast (-46)
  have hx : (run_polls (Display.construct 8 6 200 100 1 2 100 20 120 20 0)
      [(⟨0, 50, 0⟩, [(⟨0, 50, 0⟩, SDL_MOUSEBUTTONDOWN SDL_BUTTON_RIGHT)]),
        (⟨150, 50, 0⟩, [])]).window_center_pixel_x_ = -146 := by
    simp only [run_polls, input, poll_events, List.foldl, handle_event, mouse_button_down,
      input_begin, get_zoom, Display.construct, SDL_BUTTON_RIGHT, SDL_BUTTON_LEFT,
      (by decide : Int.tdiv ((8 : Nat) : Int) 2 = 4)]
    norm_num
    exact e1
  have hww : (run_polls (Display.construct 8 6 200 100 1 2 100 20 120 20 0)
      [(⟨0, 50, 0⟩, [(⟨0, 50, 0⟩, SDL_MOUSEBUTTONDOWN SDL_BUTTON_RIGHT)]),
        (⟨150, 50, 0⟩, [])]).window_width_ = 200 := by decide
  have hvw : (run_polls (Display.construct 8 6 200 100 1 2 100 20 120 20 0)
      [(⟨0, 50, 0⟩, [(⟨0, 50, 0⟩, SDL_MOUSEBUTTONDOWN SDL_BUTTON_RIGHT)]),
        (⟨150, 50, 0⟩, [])]).video_width_ = 8 := by decide
  have hzf : (run_polls (Display.construct 8 6 200 100 1 2 100 20 120 20 0)
      [(⟨0, 50, 0⟩, [(⟨0, 50, 0⟩, SDL_MOUSEBUTTONDOWN SDL_BUTTON_RIGHT)]),
        (⟨150, 50, 0⟩, [])]).zoom_factor_ = 0 := by
    simp [run_polls, input, poll_events, handle_event, mouse_button_down,
      input_begin, Display.construct, SDL_BUTTON_RIGHT, SDL_BUTTON_LEFT]
  refine ⟨hx, ?_, ?_⟩
  · simp only [src_zoomed_area, src_x_offset, get_zoom, hx, hww, hvw, hzf]
    norm_num
    rw [e2]
    decide
  · simp only [src_zoomed_area, src_x_offset, get_zoom, hx, hww, hvw, hzf]
    norm_num
    rw [e2, e3]
    decide

/-! ## The zoomed areas -/

/-- One axis of `dst_zoomed_area`: for a window extent `W > 0` and a zoom
`z > 0` the destination offset and extent computed from the clamped source
offset and extent stay inside `[0, W]`, also in sum. -/
theorem dst_axis_in_window (c v W : Int) (z : ℚ) (hz : 0 < z) (hW : 0 < W)
    (sx sw dx dw : Int)
    (hsx : sx = min (max 0 (truncToInt ((c : ℚ) - (W : ℚ) / z / 2))) v)
    (hsw : sw = min (truncToInt ((c : ℚ) + (W : ℚ) / z / 2)) v - sx)
    (hdx : dx = min (max 0 (truncToInt
      (((Int.tdiv W 2 : Int) : ℚ) - ((c - sx : Int) : ℚ) * z))) W)
    (hdw : dw = min (truncToInt ((sw : ℚ) * z)) W) :
    0 ≤ dx ∧ dx ≤ W ∧ dw ≤ W ∧ dx + dw ≤ W := by
  have hWq : (0 : ℚ) < (W : ℚ) := by exact_mod_cast hW
  have hhz : (W : ℚ) / z / 2 * z = (W : ℚ) / 2 := by
    field_simp
    ring
  have hiw : ((Int.tdiv W 2 : Int) : ℚ) ≤ (W : ℚ) / 2 := by
    have h2 : 2 * Int.tdiv W 2 ≤ W := by
      rw [Int.tdiv_eq_ediv (by omega) (by omega)]
      omega
    have h3 : (2 : ℚ) * ((Int.tdiv W 2 : Int) : ℚ) ≤ (W : ℚ) := by exact_mod_cast h2
    linarith
  generalize hL : truncToInt ((c : ℚ) - (W : ℚ) / z / 2) = L at hsx
  generalize hR : truncToInt ((c : ℚ) + (W : ℚ) / z / 2) = R at hsw
  generalize hT : truncToInt (((Int.tdiv W 2 : Int) : ℚ) - ((c - sx : Int) : ℚ) * z) = T at hdx
  generalize hU : truncToInt ((sw : ℚ) * z) = U at hdw
  refine ⟨by omega, by omega, by omega, ?_⟩
  by_cases hsw0 : sw ≤ 0
  · have h1 : (sw : ℚ) * z ≤ 0 :=
      mul_nonpos_of_nonpos_of_nonneg (by exact_mod_cast hsw0) hz.le
    have h2 : U ≤ 0 := by
      rw [← hU]
      exact truncToInt_nonpos _ h1
    omega
  · have hswpos : 0 < sw := not_le.mp hsw0
    by_cases hcase : (sx : ℚ) ≤ (c : ℚ) - (W : ℚ) / z / 2
    · have h1 : (W : ℚ) / z / 2 ≤ ((c - sx : Int) : ℚ) := by
        push_cast
        linarith
      have h2 : (W : ℚ) / 2 ≤ ((c - sx : Int) : ℚ) * z := by
        rw [← hhz]
        exact mul_le_mul_of_nonneg_right h1 hz.le
      have h3 : T ≤ 0 := by
        rw [← hT]
        exact truncToInt_nonpos _ (by linarith)
      omega
    · have hlt : (c : ℚ) - (W : ℚ) / z / 2 < (sx : ℚ) := not_le.mp hcase
      have hLle : L ≤ 0 := by
        by_contra hLpos
        have hLpos1 : 0 < L := not_le.mp hLpos
        have hq : 0 < (c : ℚ) - (W : ℚ) / z / 2 := by
          apply pos_of_truncToInt_pos
          rw [hL]
          exact hLpos1
        have hle := truncToInt_le_of_nonneg _ hq.le
        rw [hL] at hle
        have hsxL : sx ≤ L := by omega
        have hsxLq : (sx : ℚ) ≤ (L : ℚ) := by exact_mod_cast hsxL
        linarith
      have hsx0 : sx = 0 := by omega
      have hRpos : 0 < R := by omega
      have hswR : sw ≤ R := by omega
      have hqR : 0 < (c : ℚ) + (W : ℚ) / z / 2 := by
        apply pos_of_truncToInt_pos
        rw [hR]
        exact hRpos
      have hRle := truncToInt_le_of_nonneg _ hqR.le
      rw [hR] at hRle
      have hswq : (sw : ℚ) ≤ (c : ℚ) + (W : ℚ) / z / 2 := by
        have : (sw : ℚ) ≤ (R : ℚ) := by exact_mod_cast hswR
        linarith
      have hswz : (sw : ℚ) * z ≤ (c : ℚ) * z + (W : ℚ) / 2 := by
        have := mul_le_mul_of_nonneg_right hswq hz.le
        rw [add_mul, hhz] at this
        exact this
      have hswzpos : 0 ≤ (sw : ℚ) * z :=
        mul_nonneg (by exact_mod_cast hswpos.le) hz.le
      have hUle := truncToInt_le_of_nonneg _ hswzpos
      rw [hU] at hUle
      by_cases hA : ((Int.tdiv W 2 : Int) : ℚ) - ((c - sx : Int) : ℚ) * z ≤ 0
      · have h3 : T ≤ 0 := by
          rw [← hT]
          exact truncToInt_nonpos _ hA
        omega
      · have hApos := (not_le.mp hA).le
        have hTle := truncToInt_le_of_nonneg _ hApos
        have hT0 := truncToInt_nonneg_of_nonneg _ hApos
        rw [hT] at hTle hT0
        rw [hsx0] at hTle
        have hsum : ((T + U : Int) : ℚ) ≤ (W : ℚ) := by
          push_cast
          push_cast at hTle
          linarith
        have hsumi : T + U ≤ W := by exact_mod_cast hsum
        omega

/-- Claim C14. For every zoom factor, every positive window size and every
view center the rectangle `dst_zoomed_area` of `refresh` lies inside the
window: `0 ≤ x ≤ window_width_`, `w ≤ window_width_`, `x + w ≤ window_width_`,
and the same for `y`, `h` and `window_height_`. -/
theorem dst_zoomed_area_in_window (s : Display) (hw : 0 < s.window_width_)
    (hh : 0 < s.window_height_) :
    (0 ≤ (dst_zoomed_area s).x ∧ (dst_zoomed_area s).x ≤ s.window_width_ ∧
      (dst_zoomed_area s).w ≤ s.window_width_ ∧
      (dst_zoomed_area s).x + (dst_zoomed_area s).w ≤ s.window_width_) ∧
    (0 ≤ (dst_zoomed_area s).y ∧ (dst_zoomed_area s).y ≤ s.window_height_ ∧
      (dst_zoomed_area s).h ≤ s.window_height_ ∧
      (dst_zoomed_area s).y + (dst_zoomed_area s).h ≤ s.window_height_) :=
  ⟨dst_axis_in_window s.window_center_pixel_x_ s.video_width_ s.window_width_ (get_zoom s)
      (get_zoom_pos s) hw (src_zoomed_area s).x (src_zoomed_area s).w
      (dst_zoomed_area s).x (dst_zoomed_area s).w rfl rfl rfl rfl,
    dst_axis_in_window s.window_center_pixel_y_ s.video_height_ s.window_height_ (get_zoom s)
      (get_zoom_pos s) hh (src_zoomed_area s).y (src_zoomed_area s).h
      (dst_zoomed_area s).y (dst_zoomed_area s).h rfl rfl rfl rfl⟩

/-- The C14 theorem at a fresh 8 x 6 display in a 16 x 12 window. -/
theorem dst_zoomed_area_in_window_witness :
    ((0 : Int) < 16 ∧ (0 : Int) < 12) ∧
    ((0 ≤ (dst_zoomed_area (Display.construct 8 6 16 12 1 2 100 20 120 20 0)).x ∧
      (dst_zoomed_area (Display.construct 8 6 16 12 1 2 100 20 120 20 0)).x
        ≤ (Display.construct 8 6 16 12 1 2 100 20 120 20 0).window_width_ ∧
      (dst_zoomed_area (Display.construct 8 6 16 12 1 2 100 20 120 20 0)).w
        ≤ (Display.construct 8 6 16 12 1 2 100 20 120 20 0).window_width_ ∧
      (dst_zoomed_area (Display.construct 8 6 16 12 1 2 100 20 120 20 0)).x
        + (dst_zoomed_area (Display.construct 8 6 16 12 1 2 100 20 120 20 0)).w
        ≤ (Display.construct 8 6 16 12 1 2 100 20 120 20 0).window_width_) ∧
    (0 ≤ (dst_zoomed_area (Display.construct 8 6 16 12 1 2 100 20 120 20 0)).y ∧
      (dst_zoomed_area (Display.construct 8 6 16 12 1 2 100 20 120 20 0)).y
        ≤ (Display.construct 8 6 16 12 1 2 100 20 120 20 0).window_height_ ∧
      (dst_zoomed_area (Display.construct 8 6 16 12 1 2 100 20 120 20 0)).h
        ≤ (Display.construct 8 6 16 12 1 2 100 20 120 20 0).window_height_ ∧
      (dst_zoomed_area (Display.construct 8 6 16 12 1 2 100 20 120 20 0)).y
        + (dst_zoomed_area (Display.construct 8 6 16 12 1 2 100 20 120 20 0)).h
        ≤ (Display.construct 8 6 16 12 1 2 100 20 120 20 0).window_height_)) :=
  ⟨by decide,
    dst_zoomed_area_in_window (Display.construct 8 6 16 12 1 2 100 20 120 20 0)
      (by decide) (by decide)⟩

/-! ## The right-drag pan -/

/-- An event that does not assign the view center leaves it as it is. -/
theorem handle_event_center (s : Display) (sdl : SDL_State) (ev : SDL_Event)
    (h : sets_center ev = false) :
    (handle_event s sdl ev).window_center_pixel_x_ = s.window_center_pixel_x_ ∧
    (handle_event s sdl ev).window_center_pixel_y_ = s.window_center_pixel_y_ := by
  cases ev with
  | SDL_MOUSEBUTTONDOWN button =>
    simp only [handle_event, mouse_button_down]
    split_ifs <;> exact ⟨rfl, rfl⟩
  | SDL_MOUSEBUTTONUP button =>
    simp only [handle_event, mouse_button_up]
    split_ifs <;> exact ⟨rfl, rfl⟩
  | SDL_MOUSEWHEEL y =>
    simp only [handle_event, mouse_wheel]
    split_ifs <;> exact ⟨rfl, rfl⟩
  | SDL_KEYDOWN sym =>
    cases sym <;> first | exact ⟨rfl, rfl⟩ | exact absurd h (by decide)
  | SDL_QUIT => exact ⟨rfl, rfl⟩
  | other => exact ⟨rfl, rfl⟩

theorem poll_events_center (events : List (SDL_State × SDL_Event)) (s : Display)
    (h : ∀ e ∈ events, sets_center e.2 = false) :
    (poll_events s events).window_center_pixel_x_ = s.window_center_pixel_x_ ∧
    (poll_events s events).window_center_pixel_y_ = s.window_center_pixel_y_ := by
  induction events generalizing s with
  | nil => exact ⟨rfl, rfl⟩
  | cons e events ih =>
    rw [poll_events_cons]
    obtain ⟨a, b⟩ := ih (handle_event s e.1 e.2) (fun e1 h1 => h e1 (List.mem_cons_of_mem e h1))
    obtain ⟨c, d⟩ := handle_event_center s e.1 e.2 (h e (List.mem_cons_self e events))
    exact ⟨a.trans c, b.trans d⟩

theorem input_begin_drag (s : Display) (sdl : SDL_State) (h : s.right_button_down_ = true) :
    (input_begin s sdl).window_center_pixel_x_
      = truncToInt ((s.window_center_pixel_anchor_x_ : ℚ)
          + ((s.right_button_down_x_ - sdl.x : Int) : ℚ) / get_zoom s) ∧
    (input_begin s sdl).window_center_pixel_y_
      = truncToInt ((s.window_center_pixel_anchor_y_ : ℚ)
          + ((s.right_button_down_y_ - sdl.y : Int) : ℚ) / get_zoom s) := by
  unfold input_begin
  cases hl : s.left_button_down_ <;> simp [h, get_zoom]

/-! ## The fade of the error overlay -/

/-- Up to 4000 ms the fade is the square root of `1 - elapsed / 4000`. -/
theorem keep_alpha_in_fade (elapsed_ms : Int) (h : elapsed_ms ≤ 4000) :
    keep_alpha elapsed_ms = SqrtFloat.root (1 - (elapsed_ms : ℚ) / 1000 / 4) := by
  have hq : (elapsed_ms : ℚ) ≤ 4000 := by exact_mod_cast h
  have h0 : ¬ (1 - (elapsed_ms : ℚ) / 1000 / 4 < 0) := by
    rw [not_lt]
    linarith
  unfold keep_alpha c_sqrt std_max
  rw [if_neg h0]
  simp only [SqrtFloat.lt, decide_eq_true_eq]
  rw [if_neg h0]

/-- Past 4000 ms the argument of `sqrt` is negative and the fade is NaN:
`std::max(NaN, 0.0f)` returns its first argument. -/
theorem keep_alpha_past_fade (elapsed_ms : Int) (h : 4000 < elapsed_ms) :
    keep_alpha elapsed_ms = SqrtFloat.nan := by
  have hq : (4000 : ℚ) < (elapsed_ms : ℚ) := by exact_mod_cast h
  have h0 : 1 - (elapsed_ms : ℚ) / 1000 / 4 < 0 := by linarith
  unfold keep_alpha c_sqrt std_max
  rw [if_pos h0]
  rfl

/-- The radicand of the fade does not increase with the elapsed time. -/
theorem keep_alpha_radicand_antitone (e1 e2 : Int) (h : e1 ≤ e2) :
    1 - (e2 : ℚ) / 1000 / 4 ≤ 1 - (e1 : ℚ) / 1000 / 4 := by
  have hq : (e1 : ℚ) ≤ (e2 : ℚ) := by exact_mod_cast h
  linarith

/-- Claim C11, on the code: `keep_alpha` is `sqrt 1` at 0 ms, `sqrt (3/4)` at
1000 ms and `sqrt 0` at 4000 ms, but NaN, not 0, at 4001 ms. -/
theorem keep_alpha_values :
    keep_alpha 0 = SqrtFloat.root 1 ∧
    keep_alpha 1000 = SqrtFloat.root (3 / 4) ∧
    keep_alpha 4000 = SqrtFloat.root 0 ∧
    keep_alpha 4001 = SqrtFloat.nan ∧
    keep_alpha 4001 ≠ SqrtFloat.root 0 := by
  refine ⟨?_, ?_, ?_, ?_, ?_⟩
  · rw [keep_alpha_in_fade 0 (by decide)]
    norm_num
  · rw [keep_alpha_in_fade 1000 (by decide)]
    norm_num
  · rw [keep_alpha_in_fade 4000 (by decide)]
    norm_num
  · exact keep_alpha_past_fade 4001 (by decide)
  · rw [keep_alpha_past_fade 4001 (by decide)]
    exact fun h => SqrtFloat.noConfusion h

/-! ## The order of the draw operations -/

/-- Claim C15 fails as stated: on a fresh display (HUD shown, compare mode)
that holds an error overlay, the last operations before the present are the
two of the overlay and then the slider line, not the overlay last. -/
theorem draw_order_counterexample :
    refresh_draw_ops (Display.construct 8 6 16 12 1 2 100 20 120 20 0) (some 7) none =
      [DrawOp.SDL_RenderClear, DrawOp.SDL_RenderCopy Layer.video,
        DrawOp.SDL_RenderFillRect Layer.left_text, DrawOp.SDL_RenderFillRect Layer.left_position,
        DrawOp.SDL_RenderCopy Layer.left_text, DrawOp.SDL_RenderCopy Layer.left_position,
        DrawOp.SDL_RenderFillRect Layer.right_text,
        DrawOp.SDL_RenderFillRect Layer.right_position,
        DrawOp.SDL_RenderCopy Layer.right_text, DrawOp.SDL_RenderCopy Layer.right_position,
        DrawOp.SDL_RenderFillRect Layer.center_text, DrawOp.SDL_RenderCopy Layer.center_text,
        DrawOp.SDL_RenderFillRect Layer.error_message,
        DrawOp.SDL_RenderCopy Layer.error_message,
        DrawOp.SDL_RenderDrawLine, DrawOp.SDL_RenderPresent] ∧
    ¬ ∃ before, refresh_draw_ops (Display.construct 8 6 16 12 1 2 100 20 120 20 0) (some 7) none =
      before ++ [DrawOp.SDL_RenderFillRect Layer.error_message,
        DrawOp.SDL_RenderCopy Layer.error_message, DrawOp.SDL_RenderPresent] := by
  have hops : refresh_draw_ops (Display.construct 8 6 16 12 1 2 100 20 120 20 0) (some 7) none =
      [DrawOp.SDL_RenderClear, DrawOp.SDL_RenderCopy Layer.video,
        DrawOp.SDL_RenderFillRect Layer.left_text, DrawOp.SDL_RenderFillRect Layer.left_position,
        DrawOp.SDL_RenderCopy Layer.left_text, DrawOp.SDL_RenderCopy Layer.left_position,
        DrawOp.SDL_RenderFillRect Layer.right_text,
        DrawOp.SDL_RenderFillRect Layer.right_position,
        DrawOp.SDL_RenderCopy Layer.right_text, DrawOp.SDL_RenderCopy Layer.right_position,
        DrawOp.SDL_RenderFillRect Layer.center_text, DrawOp.SDL_RenderCopy Layer.center_text,
        DrawOp.SDL_RenderFillRect Layer.error_message,
        DrawOp.SDL_RenderCopy Layer.error_message,
        DrawOp.SDL_RenderDrawLine, DrawOp.SDL_RenderPresent] := by decide
  refine ⟨hops, ?_⟩
  rintro ⟨before, hb⟩
  rw [hops] at hb
  have hr := congrArg (fun l => (l.reverse.take 2)) hb
  simp at hr

/-! ## The view center over sequences of polls -/

/-- Claim C12 fails as stated: on a fresh 8 x 6 display in a 200 x 100 window
one keypad-6 key-down moves `window_center_pixel_x_` from 4 to 14, past
`video_width_ = 8`. -/
theorem center_leaves_frame :
    (run_polls (Display.construct 8 6 200 100 1 2 100 20 120 20 0)
      [(⟨100, 50, 0⟩, [(⟨100, 50, 0⟩, SDL_KEYDOWN SDLK_KP_6)])]).window_center_pixel_x_ = 14 ∧
    (run_polls (Display.construct 8 6 200 100 1 2 100 20 120 20 0)
      [(⟨100, 50, 0⟩, [(⟨100, 50, 0⟩, SDL_KEYDOWN SDLK_KP_6)])]).video_width_ = 8 ∧
    ¬ ((run_polls (Display.construct 8 6 200 100 1 2 100 20 120 20 0)
        [(⟨100, 50, 0⟩, [(⟨100, 50, 0⟩, SDL_KEYDOWN SDLK_KP_6)])]).window_center_pixel_x_
      ≤ (run_polls (Display.construct 8 6 200 100 1 2 100 20 120 20 0)
        [(⟨100, 50, 0⟩, [(⟨100, 50, 0⟩, SDL_KEYDOWN SDLK_KP_6)])]).video_width_) := by
  have hx : (run_polls (Display.construct 8 6 200 100 1 2 100 20 120 20 0)
      [(⟨100, 50, 0⟩, [(⟨100, 50, 0⟩, SDL_KEYDOWN SDLK_KP_6)])]).window_center_pixel_x_ = 14 := by
    simp only [run_polls, input, poll_events, List.foldl, handle_event, key_down, input_begin,
      get_zoom, Display.construct, (by decide : Int.tdiv ((8 : Nat) : Int) 2 = 4)]
    norm_num
    simpa using truncToInt_intCast 14
  have hw : (run_polls (Display.construct 8 6 200 100 1 2 100 20 120 20 0)
      [(⟨100, 50, 0⟩, [(⟨100, 50, 0⟩, SDL_KEYDOWN SDLK_KP_6)])]).video_width_ = 8 := by
    decide
  refine ⟨hx, hw, ?_⟩
  rw [hx, hw]
  decide

/-- An event that does not pan keeps the video size and a view center that is
at the video midpoint outside a right-drag. -/
theorem handle_event_midpoint (s : Display) (sdl : SDL_State) (ev : SDL_Event)
    (hp : pans_view ev = false)
    (hi : s.window_center_pixel_x_ = Int.tdiv s.video_width_ 2 ∧
      s.window_center_pixel_y_ = Int.tdiv s.video_height_ 2 ∧ s.right_button_down_ = false) :
    (handle_event s sdl ev).video_width_ = s.video_width_ ∧
    (handle_event s sdl ev).video_height_ = s.video_height_ ∧
    (handle_event s sdl ev).window_center_pixel_x_ = Int.tdiv s.video_width_ 2 ∧
    (handle_event s sdl ev).window_center_pixel_y_ = Int.tdiv s.video_height_ 2 ∧
    (handle_event s sdl ev).right_button_down_ = false := by
  obtain ⟨hx, hy, hr⟩ := hi
  cases ev with
  | SDL_MOUSEBUTTONDOWN button =>
    have hb : ¬ button = SDL_BUTTON_RIGHT := by simpa [pans_view] using hp
    simp only [handle_event, mouse_button_down, if_neg hb]
    split_ifs <;> exact ⟨rfl, rfl, hx, hy, hr⟩
  | SDL_MOUSEBUTTONUP button =>
    simp only [handle_event, mouse_button_up]
    split_ifs <;> first | exact ⟨rfl, rfl, hx, hy, hr⟩ | exact ⟨rfl, rfl, hx, hy, rfl⟩
  | SDL_MOUSEWHEEL y =>
    simp only [handle_event, mouse_wheel]
    split_ifs <;> exact ⟨rfl, rfl, hx, hy, hr⟩
  | SDL_KEYDOWN sym =>
    cases sym <;>
      first
        | exact ⟨rfl, rfl, hx, hy, hr⟩
        | exact ⟨rfl, rfl, rfl, rfl, hr⟩
        | exact absurd hp (by decide)
  | SDL_QUIT => exact ⟨rfl, rfl, hx, hy, hr⟩
  | other => exact ⟨rfl, rfl, hx, hy, hr⟩

theorem poll_events_midpoint (events : List (SDL_State × SDL_Event)) (s : Display)
    (hp : ∀ e ∈ events, pans_view e.2 = false)
    (hi : s.window_center_pixel_x_ = Int.tdiv s.video_width_ 2 ∧
      s.window_center_pixel_y_ = Int.tdiv s.video_height_ 2 ∧ s.right_button_down_ = false) :
    (poll_events s events).video_width_ = s.video_width_ ∧
    (poll_events s events).video_height_ = s.video_height_ ∧
    (poll_events s events).window_center_pixel_x_ = Int.tdiv s.video_width_ 2 ∧
    (poll_events s events).window_center_pixel_y_ = Int.tdiv s.video_height_ 2 ∧
    (poll_events s events).right_button_down_ = false := by
  induction events generalizing s with
  | nil => exact ⟨rfl, rfl, hi.1, hi.2.1, hi.2.2⟩
  | cons e events ih =>
    obtain ⟨a, b, c, d, f⟩ := handle_event_midpoint s e.1 e.2 (hp e (List.mem_cons_self e events)) hi
    have h2 := ih (handle_event s e.1 e.2) (fun e1 h1 => hp e1 (List.mem_cons_of_mem e h1))
      ⟨by rw [c, a], by rw [d, b], f⟩
    rw [a, b] at h2
    exact h2

theorem input_midpoint (s : Display) (sdl : SDL_State) (events : List (SDL_State × SDL_Event))
    (hp : ∀ e ∈ events, pans_view e.2 = false)
    (hi : s.window_center_pixel_x_ = Int.tdiv s.video_width_ 2 ∧
      s.window_center_pixel_y_ = Int.tdiv s.video_height_ 2 ∧ s.right_button_down_ = false) :
    (input s sdl events).video_width_ = s.video_width_ ∧
    (input s sdl events).video_height_ = s.video_height_ ∧
    (input s sdl events).window_center_pixel_x_ = Int.tdiv s.video_width_ 2 ∧
    (input s sdl events).window_center_pixel_y_ = Int.tdiv s.video_height_ 2 ∧
    (input s sdl events).right_button_down_ = false := by
  obtain ⟨hx, hy, hr⟩ := hi
  have hb : (input_begin s sdl).video_width_ = s.video_width_ ∧
      (input_begin s sdl).video_height_ = s.video_height_ ∧
      (input_begin s sdl).window_center_pixel_x_ = s.window_center_pixel_x_ ∧
      (input_begin s sdl).window_center_pixel_y_ = s.window_center_pixel_y_ ∧
      (input_begin s sdl).right_button_down_ = false := by
    unfold input_begin
    cases hl : s.left_button_down_ <;> simp [hr]
  obtain ⟨a, b, c, d, f⟩ := hb
  have h2 := poll_events_midpoint events (input_begin s sdl) hp
    ⟨by rw [c, a, hx], by rw [d, b, hy], f⟩
  rw [a, b] at h2
  exact h2

theorem run_polls_midpoint (polls : List (SDL_State × List (SDL_State × SDL_Event)))
    (s : Display) (hp : ∀ p ∈ polls, ∀ e ∈ p.2, pans_view e.2 = false)
    (hi : s.window_center_pixel_x_ = Int.tdiv s.video_width_ 2 ∧
      s.window_center_pixel_y_ = Int.tdiv s.video_height_ 2 ∧ s.right_button_down_ = false) :
    (run_polls s polls).video_width_ = s.video_width_ ∧
    (run_polls s polls).video_height_ = s.video_height_ ∧
    (run_polls s polls).window_center_pixel_x_ = Int.tdiv s.video_width_ 2 ∧
    (run_polls s polls).window_center_pixel_y_ = Int.tdiv s.video_height_ 2 := by
  induction polls generalizing s with
  | nil => exact ⟨rfl, rfl, hi.1, hi.2.1⟩
  | cons p polls ih =>
    obtain ⟨a, b, c, d, f⟩ := input_midpoint s p.1 p.2 (hp p (List.mem_cons_self p polls)) hi
    have h2 := ih (input s p.1 p.2) (fun p1 h1 => hp p1 (List.mem_cons_of_mem p h1))
      ⟨by rw [c, a], by rw [d, b], f⟩
    rw [a, b] at h2
    exact h2

/-- Claim C12 as amended: in every state reached from the initial state by
polls that drain no panning event (no right-button-down, no keypad 4, 6, 8, 2
key-down) the view center is the video midpoint, hence inside
`[0, video_width_] × [0, video_height_]`. -/
theorem center_in_frame_without_pan (width height : Nat) (window_width_ window_height_ : Int)
    (left_text_texture right_text_texture : Nat)
    (left_text_width left_text_height right_text_width right_text_height junk : Int)
    (polls : List (SDL_State × List (SDL_State × SDL_Event)))
    (hp : ∀ p ∈ polls, ∀ e ∈ p.2, pans_view e.2 = false) :
    0 ≤ (run_polls (Display.construct width height window_width_ window_height_
        left_text_texture right_text_texture left_text_width left_text_height
        right_text_width right_text_height junk) polls).window_center_pixel_x_ ∧
    (run_polls (Display.construct width height window_width_ window_height_
        left_text_texture right_text_texture left_text_width left_text_height
        right_text_width right_text_height junk) polls).window_center_pixel_x_
      ≤ (run_polls (Display.construct width height window_width_ window_height_
        left_text_texture right_text_texture left_text_width left_text_height
        right_text_width right_text_height junk) polls).video_width_ ∧
    0 ≤ (run_polls (Display.construct width height window_width_ window_height_
        left_text_texture right_text_texture left_text_width left_text_height
        right_text_width right_text_height junk) polls).window_center_pixel_y_ ∧
    (run_polls (Display.construct width height window_width_ window_height_
        left_text_texture right_text_texture left_text_width left_text_height
        right_text_width right_text_height junk) polls).window_center_pixel_y_
      ≤ (run_polls (Display.construct width height window_width_ window_height_
        left_text_texture right_text_texture left_text_width left_text_height
        right_text_width right_text_height junk) polls).video_height_ := by
  obtain ⟨a, b, c, d⟩ := run_polls_midpoint polls
    (Display.construct width height window_width_ window_height_
      left_text_texture right_text_texture left_text_width left_text_height
      right_text_width right_text_height junk) hp ⟨rfl, rfl, rfl⟩
  rw [a, b, c, d]
  have hw : (Display.construct width height window_width_ window_height_
      left_text_texture right_text_texture left_text_width left_text_height
      right_text_width right_text_height junk).video_width_ = (width : Int) := rfl
  have hh : (Display.construct width height window_width_ window_height_
      left_text_texture right_text_texture left_text_width left_text_height
      right_text_width right_text_height junk).video_height_ = (height : Int) := rfl
  rw [hw, hh, Int.tdiv_eq_ediv (by omega) (by omega), Int.tdiv_eq_ediv (by omega) (by omega)]
  omega

/-- The amended C12 theorem on a fresh 8 x 6 display over two polls: a left
click with a zoom step, then a keypad-5 and an escape key-down. -/
theorem center_in_frame_without_pan_witness :
    (∀ p ∈ ([(⟨3, 3, 0⟩, [(⟨3, 3, 0⟩, SDL_MOUSEBUTTONDOWN SDL_BUTTON_LEFT),
          (⟨3, 3, 0⟩, SDL_MOUSEWHEEL 1)]),
        (⟨5, 5, 0⟩, [(⟨5, 5, 0⟩, SDL_KEYDOWN SDLK_KP_5), (⟨5, 5, 0⟩, SDL_KEYDOWN SDLK_ESCAPE)])] :
        List (SDL_State × List (SDL_State × SDL_Event))),
      ∀ e ∈ p.2, pans_view e.2 = false) ∧
    (run_polls (Display.construct 8 6 16 12 1 2 100 20 120 20 0)
      [(⟨3, 3, 0⟩, [(⟨3, 3, 0⟩, SDL_MOUSEBUTTONDOWN SDL_BUTTON_LEFT),
          (⟨3, 3, 0⟩, SDL_MOUSEWHEEL 1)]),
        (⟨5, 5, 0⟩, [(⟨5, 5, 0⟩, SDL_KEYDOWN SDLK_KP_5),
          (⟨5, 5, 0⟩, SDL_KEYDOWN SDLK_ESCAPE)])]).window_center_pixel_x_
      ≤ (run_polls (Display.construct 8 6 16 12 1 2 100 20 120 20 0)
      [(⟨3, 3, 0⟩, [(⟨3, 3, 0⟩, SDL_MOUSEBUTTONDOWN SDL_BUTTON_LEFT),
          (⟨3, 3, 0⟩, SDL_MOUSEWHEEL 1)]),
        (⟨5, 5, 0⟩, [(⟨5, 5, 0⟩, SDL_KEYDOWN SDLK_KP_5),
          (⟨5, 5, 0⟩, SDL_KEYDOWN SDLK_ESCAPE)])]).video_width_ :=
  ⟨by decide,
    (center_in_frame_without_pan 8 6 16 12 1 2 100 20 120 20 0
      [(⟨3, 3, 0⟩, [(⟨3, 3, 0⟩, SDL_MOUSEBUTTONDOWN SDL_BUTTON_LEFT),
          (⟨3, 3, 0⟩, SDL_MOUSEWHEEL 1)]),
        (⟨5, 5, 0⟩, [(⟨5, 5, 0⟩, SDL_KEYDOWN SDLK_KP_5), (⟨5, 5, 0⟩, SDL_KEYDOWN SDLK_ESCAPE)])]
      (by decide)).2.1⟩

/-! ## The texture update -/

/-- A load that returns a value is inside its plane. -/
theorem loadByte_in_bounds (p : Plane) (ptr : Int) (v : Int) (h : loadByte p ptr = some v) :
    0 ≤ ptr ∧ ptr.toNat < p.length := by
  unfold loadByte at h
  by_cases h0 : 0 ≤ ptr
  · rw [if_pos h0] at h
    refine ⟨h0, ?_⟩
    by_contra hlen
    rw [List.getElem?_eq_none (not_lt.mp hlen)] at h
    exact absurd h (by simp)
  · rw [if_neg h0] at h
    exact absurd h (by simp)

/-- A store that returns a plane is inside the plane it writes. -/
theorem storeByte_in_bounds (p : Plane) (ptr : Int) (v : Nat) (q : Plane)
    (h : storeByte p ptr v = some q) : 0 ≤ ptr ∧ ptr.toNat < p.length := by
  unfold storeByte at h
  by_cases h0 : 0 ≤ ptr ∧ ptr.toNat < p.length
  · exact h0
  · rw [if_neg h0] at h
    exact absurd h (by simp)

/-- The call `update_difference` returns for frames and a diff buffer of the
sizes of the session, given with integer dimensions. -/
theorem update_difference_returns (video_width_ video_height_ : Int)
    (diff_buffer_ plane_left plane_right : Plane) (pitch_left pitch_right : Nat)
    (split_x : Int)
    (hpl : 3 * video_width_ ≤ pitch_left) (hpr : 3 * video_width_ ≤ pitch_right)
    (hsl : video_height_ * pitch_left ≤ plane_left.length)
    (hsr : video_height_ * pitch_right ≤ plane_right.length)
    (hsd : video_width_ * video_height_ * 3 ≤ diff_buffer_.length)
    (h0 : 0 ≤ split_x) (h1 : split_x ≤ video_width_) :
    ∃ diff1, update_difference video_width_ video_height_ diff_buffer_ plane_left pitch_left
        plane_right pitch_right split_x = some diff1 ∧ diff1.length = diff_buffer_.length := by
  obtain ⟨S, rfl⟩ := Int.eq_ofNat_of_zero_le h0
  obtain ⟨W, rfl⟩ := Int.eq_ofNat_of_zero_le (le_trans h0 h1)
  have hSW : S ≤ W := by omega
  have hH : ((video_height_.toNat : Nat) : Int) * (pitch_left : Int) ≤ plane_left.length := by
    rcases le_or_lt 0 video_height_ with h | h
    · rw [Int.toNat_of_nonneg h]; exact hsl
    · rw [Int.toNat_eq_zero.mpr h.le]; simp
  have hH2 : ((video_height_.toNat : Nat) : Int) * (pitch_right : Int) ≤ plane_right.length := by
    rcases le_or_lt 0 video_height_ with h | h
    · rw [Int.toNat_of_nonneg h]; exact hsr
    · rw [Int.toNat_eq_zero.mpr h.le]; simp
  have hH3 : ((video_height_.toNat : Nat) : Int) * (3 * (W : Int)) ≤ diff_buffer_.length := by
    rcases le_or_lt 0 video_height_ with h | h
    · rw [Int.toNat_of_nonneg h]; linarith
    · rw [Int.toNat_eq_zero.mpr h.le]; simp
  obtain ⟨cm, hrun, -, -, -, -, -, -, -, -, -, hlen, -⟩ :=
    diff_rows_spec W video_height_.toNat S pitch_left pitch_right plane_left plane_right
      diff_buffer_ hSW (by exact_mod_cast hpl) (by exact_mod_cast hpr)
      (by exact_mod_cast hH) (by exact_mod_cast hH2) (by exact_mod_cast hH3)
      video_height_.toNat le_rfl
  refine ⟨cm.diff, ?_, hlen⟩
  unfold update_difference
  rw [hrun]
  rfl

/-- The split of a refresh is not negative when the video width is not. -/
theorem split_x_nonneg (s : Display) (hvw : 0 ≤ s.video_width_) (sp : Int)
    (h : split_x s = some sp) : 0 ≤ sp := by
  unfold split_x at h
  split_ifs at h with h1 h2 h3
  · have e : mouse_video_x s = sp := by simpa using h
    rw [← e]
    unfold mouse_video_x
    exact le_min (le_max_left _ _) hvw
  · have e : s.video_width_ = sp := by simpa using h
    rw [← e]
    exact hvw
  · have e : (0 : Int) = sp := by simpa using h
    rw [← e]

/-- Claim C20. For `video_width_ ≥ 0`, `video_height_ ≥ 0`,
`0 ≤ split_x ≤ video_width_`, source planes of `pitch * video_height_` bytes
with `pitch ≥ 3 * video_width_` and a diff buffer of
`3 * video_width_ * video_height_` bytes, `update_difference` returns: no load
from a source plane and no store to the diff buffer leaves its plane; and every
call of `update_difference` from `refresh` has `0 ≤ split_x < video_width_ - 1`. -/
theorem update_difference_in_bounds (video_width_ video_height_ : Int)
    (diff_buffer_ plane_left plane_right : Plane) (pitch_left pitch_right : Nat)
    (split_x : Int) (_hvw : 0 ≤ video_width_) (_hvh : 0 ≤ video_height_)
    (h0 : 0 ≤ split_x) (h1 : split_x ≤ video_width_)
    (hpl : 3 * video_width_ ≤ pitch_left) (hpr : 3 * video_width_ ≤ pitch_right)
    (hsl : (plane_left.length : Int) = pitch_left * video_height_)
    (hsr : (plane_right.length : Int) = pitch_right * video_height_)
    (hsd : (diff_buffer_.length : Int) = 3 * video_width_ * video_height_) :
    (update_difference video_width_ video_height_ diff_buffer_ plane_left pitch_left
        plane_right pitch_right split_x).isSome = true ∧
    (∀ (p : Plane) (ptr v : Int), loadByte p ptr = some v → 0 ≤ ptr ∧ ptr.toNat < p.length) ∧
    (∀ (p q : Plane) (ptr : Int) (v : Nat), storeByte p ptr v = some q →
      0 ≤ ptr ∧ ptr.toNat < p.length) ∧
    (∀ s : Display, 0 ≤ s.video_width_ → ∀ sp ∈ update_difference_calls s,
      0 ≤ sp ∧ sp < s.video_width_ - 1) := by
  refine ⟨?_, loadByte_in_bounds, fun p q ptr v => storeByte_in_bounds p ptr v q, ?_⟩
  · obtain ⟨d, hd, -⟩ := update_difference_returns video_width_ video_height_ diff_buffer_
      plane_left plane_right pitch_left pitch_right split_x hpl hpr
      (by rw [hsl, mul_comm]) (by rw [hsr, mul_comm]) (by rw [hsd]; linarith) h0 h1
    rw [hd]
    rfl
  · intro s hs sp hsp
    unfold update_difference_calls at hsp
    cases hsx : VideoCompare.split_x s with
    | none =>
      rw [hsx] at hsp
      simp at hsp
    | some v =>
      rw [hsx] at hsp
      simp only at hsp
      split_ifs at hsp with hg hm
      · have e : sp = v := by simpa using hsp
        rw [e]
        exact ⟨split_x_nonneg s hs v hsx, hg.2⟩
      · simp at hsp
      · simp at hsp

/-- The C20 theorem at a 2 x 2 frame with pitches 8 and 6, `split_x = 0`. -/
theorem update_difference_in_bounds_witness :
    ((0 : Int) ≤ 2 ∧ (0 : Int) ≤ 0 ∧ (0 : Int) ≤ 2 ∧ 3 * (2 : Int) ≤ (8 : Nat) ∧
      3 * (2 : Int) ≤ (6 : Nat)) ∧
    (update_difference 2 2 (List.replicate 12 7)
        [1, 2, 3, 4, 5, 6, 0, 0, 10, 20, 30, 40, 50, 60, 0, 0] 8
        [0, 0, 0, 0, 0, 0, 200, 200, 200, 100, 100, 100] 6 0).isSome = true :=
  ⟨by decide,
    (update_difference_in_bounds 2 2 (List.replicate 12 7)
      [1, 2, 3, 4, 5, 6, 0, 0, 10, 20, 30, 40, 50, 60, 0, 0]
      [0, 0, 0, 0, 0, 0, 200, 200, 200, 100, 100, 100] 8 6 0
      (by decide) (by decide) (by decide) (by decide) (by decide) (by decide)
      (by decide) (by decide) (by decide)).1⟩

/-- With the split at `video_width_ - 1` the right-hand update of `refresh` is
skipped: the texture and the diff buffer after the step do not depend on the
right frame. -/
theorem texture_update_ignores_right (s : Display) (h : split_x s = some (s.video_width_ - 1))
    (texture_ plane_left plane_right plane_right2 : Plane)
    (pitch_left pitch_right pitch_right2 : Nat) :
    texture_update s texture_ plane_left pitch_left plane_right pitch_right =
      texture_update s texture_ plane_left pitch_left plane_right2 pitch_right2 := by
  have hg : ¬ (s.show_right_ = true ∧ s.video_width_ - 1 < s.video_width_ - 1) :=
    fun hc => lt_irrefl _ hc.2
  unfold texture_update
  rw [h]
  simp only [if_neg hg]


/-! ## The pointer and the split -/

theorem roundToInt_mono (a b : ℚ) (h : a ≤ b) : roundToInt a ≤ roundToInt b := by
  unfold roundToInt
  by_cases ha : 0 ≤ a
  · rw [if_pos ha, if_pos (le_trans ha h)]
    exact Int.floor_le_floor (by linarith)
  · rw [if_neg ha]
    have ha1 : a - 1 / 2 ≤ 0 := by linarith [not_le.mp ha]
    by_cases hb : 0 ≤ b
    · rw [if_pos hb]
      have h1 : ⌈a - 1 / 2⌉ ≤ 0 := Int.ceil_le.mpr (by simpa using ha1)
      have h2 : 0 ≤ ⌊b + 1 / 2⌋ := Int.floor_nonneg.mpr (by linarith)
      omega
    · rw [if_neg hb]
      exact Int.ceil_le_ceil (by linarith)

/-- Claim C21. For every zoom factor, view center and window size the video
coordinate of the pointer computed by `refresh` is monotone in the pointer:
`mouse_x1 ≤ mouse_x2` gives `mouse_video_x(mouse_x1) ≤ mouse_video_x(mouse_x2)`,
and the split of the refresh with the pointer at `mouse_x1` is not to the right
of the split with the pointer at `mouse_x2`. -/
theorem mouse_video_x_mono (s : Display) (mouse_x1 mouse_x2 : Int) (h : mouse_x1 ≤ mouse_x2) :
    mouse_video_x { s with mouse_x := mouse_x1 } ≤ mouse_video_x { s with mouse_x := mouse_x2 } ∧
    (∀ a b : Int, split_x { s with mouse_x := mouse_x1 } = some a →
      split_x { s with mouse_x := mouse_x2 } = some b → a ≤ b) := by
  have hz := get_zoom_pos s
  have hq : ((mouse_x1 - Int.tdiv s.window_width_ 2 : Int) : ℚ) / get_zoom s
      ≤ ((mouse_x2 - Int.tdiv s.window_width_ 2 : Int) : ℚ) / get_zoom s := by
    apply div_le_div_of_nonneg_right _ hz.le
    exact_mod_cast Int.sub_le_sub_right h _
  have hr := roundToInt_mono _ _ hq
  have hm : mouse_video_x { s with mouse_x := mouse_x1 }
      ≤ mouse_video_x { s with mouse_x := mouse_x2 } := by
    show min (max 0 (roundToInt (((mouse_x1 - Int.tdiv s.window_width_ 2 : Int) : ℚ)
        / get_zoom s) + s.window_center_pixel_x_)) s.video_width_
      ≤ min (max 0 (roundToInt (((mouse_x2 - Int.tdiv s.window_width_ 2 : Int) : ℚ)
        / get_zoom s) + s.window_center_pixel_x_)) s.video_width_
    omega
  refine ⟨hm, fun a b ha hb => ?_⟩
  have e1 : split_x { s with mouse_x := mouse_x1 } =
      if s.show_left_ || s.show_right_ then
        some (if s.show_left_ && s.show_right_ then mouse_video_x { s with mouse_x := mouse_x1 }
          else if s.show_left_ then s.video_width_ else 0)
      else none := rfl
  have e2 : split_x { s with mouse_x := mouse_x2 } =
      if s.show_left_ || s.show_right_ then
        some (if s.show_left_ && s.show_right_ then mouse_video_x { s with mouse_x := mouse_x2 }
          else if s.show_left_ then s.video_width_ else 0)
      else none := rfl
  rw [e1] at ha
  rw [e2] at hb
  generalize mouse_video_x { s with mouse_x := mouse_x1 } = g1 at hm ha
  generalize mouse_video_x { s with mouse_x := mouse_x2 } = g2 at hm hb
  cases hl : s.show_left_ <;> cases hr2 : s.show_right_ <;> rw [hl, hr2] at ha hb <;>
    simp at ha hb <;> omega

/-- The C21 theorem at a fresh 8 x 6 display with the pointer at columns 3 and 11. -/
theorem mouse_video_x_mono_witness :
    (3 : Int) ≤ 11 ∧
    mouse_video_x { Display.construct 8 6 16 12 1 2 100 20 120 20 0 with mouse_x := 3 }
      ≤ mouse_video_x { Display.construct 8 6 16 12 1 2 100 20 120 20 0 with mouse_x := 11 } :=
  ⟨by decide,
    (mouse_video_x_mono (Display.construct 8 6 16 12 1 2 100 20 120 20 0) 3 11 (by decide)).1⟩

/-! ## Quit -/

/-- No event clears `quit_`. -/
theorem handle_event_quit (s : Display) (sdl : SDL_State) (ev : SDL_Event)
    (h : s.quit_ = true) : (handle_event s sdl ev).quit_ = true := by
  cases ev with
  | SDL_MOUSEBUTTONDOWN button =>
    simp only [handle_event, mouse_button_down]
    split_ifs <;> exact h
  | SDL_MOUSEBUTTONUP button =>
    simp only [handle_event, mouse_button_up]
    split_ifs <;> exact h
  | SDL_MOUSEWHEEL y =>
    simp only [handle_event, mouse_wheel]
    split_ifs <;> exact h
  | SDL_KEYDOWN sym => cases sym <;> first | exact h | rfl
  | SDL_QUIT => rfl
  | other => exact h

theorem poll_events_quit (events : List (SDL_State × SDL_Event)) (s : Display)
    (h : s.quit_ = true) : (poll_events s events).quit_ = true := by
  induction events generalizing s with
  | nil => exact h
  | cons e events ih =>
    rw [poll_events_cons]
    exact ih (handle_event s e.1 e.2) (handle_event_quit s e.1 e.2 h)

theorem input_quit (s : Display) (sdl : SDL_State) (events : List (SDL_State × SDL_Event))
    (h : s.quit_ = true) : (input s sdl events).quit_ = true := by
  have hb : (input_begin s sdl).quit_ = true := by
    simp only [input_begin]
    split_ifs <;> exact h
  exact poll_events_quit events (input_begin s sdl) hb

theorem run_polls_quit (polls : List (SDL_State × List (SDL_State × SDL_Event)))
    (s : Display) (h : s.quit_ = true) : (run_polls s polls).quit_ = true := by
  induction polls generalizing s with
  | nil => exact h
  | cons p polls ih => exact ih (input s p.1 p.2) (input_quit s p.1 p.2 h)

/-- Claim C22. An Escape key-down and a window-close event set `quit_`, and
once `quit_` is true `get_quit` is true after every later call of `input`,
over every sequence of polls, events and pointer positions. -/
theorem quit_sticky (s : Display) (h : get_quit s = true) :
    (∀ (sdl : SDL_State) (events : List (SDL_State × SDL_Event)),
      get_quit (input s sdl events) = true) ∧
    (∀ polls : List (SDL_State × List (SDL_State × SDL_Event)),
      get_quit (run_polls s polls) = true) ∧
    (∀ (t : Display) (sdl : SDL_State),
      get_quit (handle_event t sdl (SDL_KEYDOWN SDLK_ESCAPE)) = true ∧
      get_quit (handle_event t sdl SDL_QUIT) = true) :=
  ⟨fun sdl events => input_quit s sdl events h, fun polls => run_polls_quit polls s h,
    fun _ _ => ⟨rfl, rfl⟩⟩

/-- The C22 theorem at a fresh display after an Escape key-down: two later
polls, one empty and one with a space key-down and a click, keep `quit_`. -/
theorem quit_sticky_witness :
    get_quit (handle_event (Display.construct 8 6 16 12 1 2 100 20 120 20 0) ⟨0, 0, 0⟩
      (SDL_KEYDOWN SDLK_ESCAPE)) = true ∧
    get_quit (run_polls (handle_event (Display.construct 8 6 16 12 1 2 100 20 120 20 0) ⟨0, 0, 0⟩
        (SDL_KEYDOWN SDLK_ESCAPE))
      [(⟨1, 1, 0⟩, []),
        (⟨2, 2, 0⟩, [(⟨2, 2, 0⟩, SDL_KEYDOWN SDLK_SPACE),
          (⟨2, 2, 0⟩, SDL_MOUSEBUTTONDOWN SDL_BUTTON_LEFT)])]) = true :=
  ⟨by decide,
    (quit_sticky (handle_event (Display.construct 8 6 16 12 1 2 100 20 120 20 0) ⟨0, 0, 0⟩
      (SDL_KEYDOWN SDLK_ESCAPE)) (by decide)).2.1 _⟩


/-! ## The code's arithmetic -/

/-- Away from a tie `roundHalfEven` is the integer within one half. -/
theorem roundHalfEven_eq (x : ℚ) (m : Int) (h1 : (m : ℚ) - 1 / 2 < x) (h2 : x < (m : ℚ) + 1 / 2) :
    roundHalfEven x = m := by
  unfold roundHalfEven
  by_cases hx : (m : ℚ) ≤ x
  · have hf : ⌊x⌋ = m := by
      rw [Int.floor_eq_iff]
      exact ⟨hx, by linarith⟩
    rw [hf, if_pos (by linarith)]
  · have hf : ⌊x⌋ = m - 1 := by
      rw [Int.floor_eq_iff]
      push_cast
      exact ⟨by linarith, by linarith [not_le.mp hx]⟩
    rw [hf]
    push_cast
    rw [if_neg (by linarith), if_pos (by linarith)]
    omega

/-- The value of `binary32` at a number of the binade `[2 ^ e, 2 ^ (e + 1))`
whose significand rounds to `m` away from a tie. -/
theorem binary32_eq (q : ℚ) (e m : Int) (h1 : (2 : ℚ) ^ e ≤ |q|) (h2 : |q| < (2 : ℚ) ^ (e + 1))
    (h3 : (m : ℚ) - 1 / 2 < q / 2 ^ (e - 23)) (h4 : q / 2 ^ (e - 23) < (m : ℚ) + 1 / 2) :
    binary32 q = (m : ℚ) * 2 ^ (e - 23) := by
  have hpos : (0 : ℚ) < |q| := lt_of_lt_of_le (by positivity) h1
  have hq : q ≠ 0 := abs_pos.mp hpos
  have hlog : Int.log 2 |q| = e := by
    have a : e ≤ Int.log 2 |q| := (Int.zpow_le_iff_le_log (by norm_num) hpos).mp (by exact_mod_cast h1)
    have b : Int.log 2 |q| < e + 1 :=
      (Int.lt_zpow_iff_log_lt (by norm_num) hpos).mp (by exact_mod_cast h2)
    omega
  unfold binary32
  rw [if_neg hq, hlog, roundHalfEven_eq _ m h3 h4]

/-- Zero is a binary32 number. -/
theorem binary32_zero : binary32 0 = 0 := by
  unfold binary32
  rw [if_pos rfl]

theorem get_zoom_fl_id (s : Display) : get_zoom_fl id s = get_zoom s := rfl

theorem mouse_video_x_fl_id (s : Display) : mouse_video_x_fl id s = mouse_video_x s := rfl

theorem split_x_fl_id (s : Display) : split_x_fl id s = split_x s := rfl

theorem input_begin_fl_id (s : Display) (sdl : SDL_State) :
    input_begin_fl id s sdl = input_begin s sdl := rfl

/-- Exact arithmetic and the arithmetic of the code part.  With the zoom factor
`2 / 10` of one plus key-down, on a 64 x 48 display in a 200 x 100 window with
the pointer at column 109, exact operations give the zoom `6 / 5`, the quotient
`9 / zoom` is the tie `7.5`, and the split is `8 + 32 = 40`; a right-drag of 30
pixels from the anchor center 4 gives `4 + 25 = 29`.  The code holds the zoom
`1.2000000477`, its quotients round below `7.5` and below `25`, and it computes
39 and 28. -/
theorem exact_arithmetic_differs :
    split_x { Display.construct 64 48 200 100 1 2 100 20 120 20 0 with
      zoom_factor_ := 2 / 10, mouse_x := 109 } = some 40 ∧
    (input_begin (handle_event { Display.construct 8 6 200 100 1 2 100 20 120 20 0 with
        zoom_factor_ := 2 / 10 } ⟨100, 50, 0⟩
      (SDL_MOUSEBUTTONDOWN SDL_BUTTON_RIGHT)) ⟨70, 50, 0⟩).window_center_pixel_x_ = 29 := by
  constructor
  · have hn : (((109 : Int) - Int.tdiv 200 2 : Int) : ℚ) = 9 := by
      rw [(by decide : Int.tdiv 200 2 = 100)]
      norm_num
    have hr : roundToInt (9 / (1 + 2 / 10)) = 8 := by
      simp only [roundToInt]
      norm_num
    simp only [split_x, compare_mode, mouse_video_x, get_zoom, Display.construct]
    rw [hn, if_pos (show (2 / 10 : ℚ) ≥ 0 by norm_num), hr,
      (by decide : Int.tdiv ((64 : Nat) : Int) 2 = 32)]
    decide
  · have ht : truncToInt (29 : ℚ) = 29 := by simpa using truncToInt_intCast 29
    simp only [input_begin, handle_event, mouse_button_down, Display.construct, get_zoom,
      SDL_BUTTON_RIGHT, SDL_BUTTON_LEFT, (by decide : Int.tdiv ((8 : Nat) : Int) 2 = 4)]
    norm_num
    exact ht

theorem binary32_one_fifth : binary32 (2 / 10) = 13421773 / 67108864 := by
  rw [binary32_eq (2 / 10) (-3) 13421773 (by norm_num [abs_of_pos]) (by norm_num [abs_of_pos])
    (by norm_num) (by norm_num)]
  norm_num

theorem binary32_zoom_step : binary32 (1 + 13421773 / 67108864) = 5033165 / 4194304 := by
  rw [binary32_eq (1 + 13421773 / 67108864) 0 10066330 (by norm_num [abs_of_pos])
    (by norm_num [abs_of_pos]) (by norm_num) (by norm_num)]
  norm_num


theorem binary32_nine : binary32 9 = 9 := by
  rw [binary32_eq 9 3 9437184 (by norm_num [abs_of_pos]) (by norm_num [abs_of_pos])
    (by norm_num) (by norm_num)]
  norm_num

theorem binary32_split_quotient :
    binary32 (9 / (5033165 / 4194304)) = 15728639 / 2097152 := by
  rw [binary32_eq (9 / (5033165 / 4194304)) 2 15728639 (by norm_num [abs_of_pos])
    (by norm_num [abs_of_pos]) (by norm_num) (by norm_num)]
  norm_num

/-- Claim C4. In a refresh where at least one side is shown, `split_x` is:
the clamp to `[0, video_width_]` of
`round((mouse_x - window_width_ / 2) / scale) + center_x` when both sides are
shown, the quotient being the one the code computes (`window_width_ / 2` in
`int`, the division in `float` with `scale` the value of `get_zoom`, under any
rounding `fl` of the `float` operations, `binary32` in the code);
`video_width_` when only the left side is shown; `0` when the left side is not
shown, for every pointer position. -/
theorem split_x_cases (fl : ℚ → ℚ) (s : Display)
    (hshown : s.show_left_ = true ∨ s.show_right_ = true) :
    (s.show_left_ = true → s.show_right_ = true →
      split_x_fl fl s = some (spec_clamp
        (roundToInt (fl (fl ((s.mouse_x - Int.tdiv s.window_width_ 2 : Int) : ℚ)
            / get_zoom_fl fl s))
          + s.window_center_pixel_x_) 0 s.video_width_)) ∧
    (s.show_left_ = true → s.show_right_ = false → split_x_fl fl s = some s.video_width_) ∧
    (s.show_left_ = false → ∀ mx my : Int,
      split_x_fl fl { s with mouse_x := mx, mouse_y := my } = some 0) := by
  refine ⟨fun hl hr => ?_, fun hl hr => ?_, fun hl mx my => ?_⟩
  · simp only [split_x_fl, compare_mode, mouse_video_x_fl, spec_clamp, hl, hr, Bool.or_self,
      Bool.and_self, if_true]
    rw [max_comm]
  · simp [split_x_fl, compare_mode, hl, hr]
  · have hr : s.show_right_ = true := by
      rcases hshown with h | h
      · rw [hl] at h
        exact absurd h (by decide)
      · exact h
    simp [split_x_fl, compare_mode, hl, hr]

/-- The C4 theorem in the arithmetic of the code (`fl = binary32`), on a
64 x 48 display in a 200 x 100 window with `zoom_factor_ = 0.2f` (the `float`
one plus key-down stores): with the pointer at column 109 the zoom is
`1.2000000477`, the quotient `9 / zoom` rounds to `7.4999995`, and the split is
`7 + 32 = 39`; with the left side hidden the split is `0`. -/
theorem split_x_cases_witness :
    split_x_fl binary32 { Display.construct 64 48 200 100 1 2 100 20 120 20 0 with
      zoom_factor_ := binary32 (2 / 10), mouse_x := 109 } = some 39 ∧
    (key_down (Display.construct 8 6 16 12 1 2 100 20 120 20 0) SDLK_1).show_right_ = true ∧
    ∀ mx my : Int,
      split_x_fl binary32
        { key_down (Display.construct 8 6 16 12 1 2 100 20 120 20 0) SDLK_1 with
          mouse_x := mx, mouse_y := my } = some 0 :=
  ⟨((split_x_cases binary32 { Display.construct 64 48 200 100 1 2 100 20 120 20 0 with
      zoom_factor_ := binary32 (2 / 10), mouse_x := 109 } (Or.inl rfl)).1 rfl rfl).trans (by
      have hz : get_zoom_fl binary32 { Display.construct 64 48 200 100 1 2 100 20 120 20 0 with
          zoom_factor_ := binary32 (2 / 10), mouse_x := 109 } = 5033165 / 4194304 := by
        simp only [get_zoom_fl, binary32_one_fifth]
        rw [if_pos (by norm_num), binary32_zoom_step]
      have hn : (((109 : Int) - Int.tdiv 200 2 : Int) : ℚ) = 9 := by
        rw [(by decide : Int.tdiv 200 2 = 100)]
        norm_num
      have hr : roundToInt (15728639 / 2097152) = 7 := by
        simp only [roundToInt]
        norm_num
      rw [hz]
      simp only [Display.construct]
      rw [hn, binary32_nine, binary32_split_quotient, hr,
        (by decide : Int.tdiv ((64 : Nat) : Int) 2 = 32)]
      decide),
    by decide,
    (split_x_cases binary32 (key_down (Display.construct 8 6 16 12 1 2 100 20 120 20 0) SDLK_1)
      (Or.inr (by decide))).2.2 (by decide)⟩


theorem binary32_thirty : binary32 30 = 30 := by
  rw [binary32_eq 30 4 15728640 (by norm_num [abs_of_pos]) (by norm_num [abs_of_pos])
    (by norm_num) (by norm_num)]
  norm_num

theorem binary32_four : binary32 4 = 4 := by
  rw [binary32_eq 4 2 8388608 (by norm_num [abs_of_pos]) (by norm_num [abs_of_pos])
    (by norm_num) (by norm_num)]
  norm_num

theorem binary32_drag_quotient :
    binary32 (30 / (5033165 / 4194304)) = 13107199 / 524288 := by
  rw [binary32_eq (30 / (5033165 / 4194304)) 4 13107199 (by norm_num [abs_of_pos])
    (by norm_num [abs_of_pos]) (by norm_num) (by norm_num)]
  norm_num

theorem binary32_drag_sum : binary32 (4 + 13107199 / 524288) = 15204351 / 524288 := by
  rw [binary32_eq (4 + 13107199 / 524288) 4 15204351 (by norm_num [abs_of_pos])
    (by norm_num [abs_of_pos]) (by norm_num) (by norm_num)]
  norm_num

theorem input_begin_fl_drag (fl : ℚ → ℚ) (s : Display) (sdl : SDL_State)
    (h : s.right_button_down_ = true) :
    (input_begin_fl fl s sdl).window_center_pixel_x_
      = truncToInt (fl (fl (s.window_center_pixel_anchor_x_ : ℚ)
          + fl (fl ((s.right_button_down_x_ - sdl.x : Int) : ℚ) / get_zoom_fl fl s))) ∧
    (input_begin_fl fl s sdl).window_center_pixel_y_
      = truncToInt (fl (fl (s.window_center_pixel_anchor_y_ : ℚ)
          + fl (fl ((s.right_button_down_y_ - sdl.y : Int) : ℚ) / get_zoom_fl fl s))) := by
  unfold input_begin_fl
  cases hl : s.left_button_down_ <;> simp [h, get_zoom_fl]

/-- Claim C18. A poll that starts with `right_button_down_` set and the pointer
at `(sdl.x, sdl.y)` sets the center to
`anchor_center + (anchor_pointer - pointer) / scale`, converted to `int`, before
it drains the events: the sum and the quotient are the ones the code computes,
in `float` under any rounding `fl` of the operations (`binary32` in the code).
That is the center after `input` when no drained event is a keypad pan or
center key.  The anchors are the pointer and the center at the
right-button-down event.  With the pointer where it was at that event the
center is the anchor center, for an anchor center that is a `float`. -/
theorem right_drag_pan (fl : ℚ → ℚ) (s : Display) (sdl : SDL_State)
    (h : s.right_button_down_ = true) :
    ((input_begin_fl fl s sdl).window_center_pixel_x_
        = truncToInt (fl (fl (s.window_center_pixel_anchor_x_ : ℚ)
            + fl (fl ((s.right_button_down_x_ - sdl.x : Int) : ℚ) / get_zoom_fl fl s))) ∧
      (input_begin_fl fl s sdl).window_center_pixel_y_
        = truncToInt (fl (fl (s.window_center_pixel_anchor_y_ : ℚ)
            + fl (fl ((s.right_button_down_y_ - sdl.y : Int) : ℚ) / get_zoom_fl fl s)))) ∧
    (∀ events : List (SDL_State × SDL_Event), (∀ e ∈ events, sets_center e.2 = false) →
      (input_fl fl s sdl events).window_center_pixel_x_
        = truncToInt (fl (fl (s.window_center_pixel_anchor_x_ : ℚ)
            + fl (fl ((s.right_button_down_x_ - sdl.x : Int) : ℚ) / get_zoom_fl fl s))) ∧
      (input_fl fl s sdl events).window_center_pixel_y_
        = truncToInt (fl (fl (s.window_center_pixel_anchor_y_ : ℚ)
            + fl (fl ((s.right_button_down_y_ - sdl.y : Int) : ℚ) / get_zoom_fl fl s)))) ∧
    (∀ down : SDL_State,
      (handle_event s down (SDL_MOUSEBUTTONDOWN SDL_BUTTON_RIGHT)).right_button_down_ = true ∧
      (handle_event s down (SDL_MOUSEBUTTONDOWN SDL_BUTTON_RIGHT)).right_button_down_x_
        = down.x ∧
      (handle_event s down (SDL_MOUSEBUTTONDOWN SDL_BUTTON_RIGHT)).right_button_down_y_
        = down.y ∧
      (handle_event s down (SDL_MOUSEBUTTONDOWN SDL_BUTTON_RIGHT)).window_center_pixel_anchor_x_
        = s.window_center_pixel_x_ ∧
      (handle_event s down (SDL_MOUSEBUTTONDOWN SDL_BUTTON_RIGHT)).window_center_pixel_anchor_y_
        = s.window_center_pixel_y_) ∧
    (fl 0 = 0 → fl (s.window_center_pixel_anchor_x_ : ℚ) = (s.window_center_pixel_anchor_x_ : ℚ) →
      fl (s.window_center_pixel_anchor_y_ : ℚ) = (s.window_center_pixel_anchor_y_ : ℚ) →
      s.right_button_down_x_ = sdl.x → s.right_button_down_y_ = sdl.y →
      (input_begin_fl fl s sdl).window_center_pixel_x_ = s.window_center_pixel_anchor_x_ ∧
      (input_begin_fl fl s sdl).window_center_pixel_y_ = s.window_center_pixel_anchor_y_) := by
  have hb := input_begin_fl_drag fl s sdl h
  refine ⟨hb, fun events hev => ?_, fun down => ?_, fun h0 hax hay hx hy => ?_⟩
  · obtain ⟨a, b⟩ := poll_events_center events (input_begin_fl fl s sdl) hev
    unfold input_fl
    rw [a, b]
    exact hb
  · have hne : SDL_BUTTON_RIGHT ≠ SDL_BUTTON_LEFT := by decide
    refine ⟨?_, ?_, ?_, ?_, ?_⟩ <;>
      simp only [handle_event, mouse_button_down, if_neg hne, if_true]
  · rw [hb.1, hb.2, hx, hy]
    simp only [sub_self, Int.cast_zero, h0, zero_div, add_zero, hax, hay]
    exact ⟨truncToInt_intCast _, truncToInt_intCast _⟩

/-- The C18 theorem in the arithmetic of the code (`fl = binary32`), on an
8 x 6 display in a 200 x 100 window with `zoom_factor_ = 0.2f`: the right button
goes down at `(100, 50)` with the center at `(4, 3)`, the next poll finds the
pointer at `(70, 50)`; the quotient `30 / 1.2000000477` rounds to `24.999998`,
the sum to `28.999998`, and the center becomes `(28, 3)`. -/
theorem right_drag_pan_witness :
    (handle_event { Display.construct 8 6 200 100 1 2 100 20 120 20 0 with
        zoom_factor_ := binary32 (2 / 10) } ⟨100, 50, 0⟩
      (SDL_MOUSEBUTTONDOWN SDL_BUTTON_RIGHT)).right_button_down_ = true ∧
    (input_begin_fl binary32 (handle_event { Display.construct 8 6 200 100 1 2 100 20 120 20 0 with
        zoom_factor_ := binary32 (2 / 10) } ⟨100, 50, 0⟩
      (SDL_MOUSEBUTTONDOWN SDL_BUTTON_RIGHT)) ⟨70, 50, 0⟩).window_center_pixel_x_ = 28 :=
  have h := (right_drag_pan binary32 (handle_event
    { Display.construct 8 6 200 100 1 2 100 20 120 20 0 with zoom_factor_ := binary32 (2 / 10) }
    ⟨100, 50, 0⟩ (SDL_MOUSEBUTTONDOWN SDL_BUTTON_RIGHT)) ⟨70, 50, 0⟩ (by decide)).1
  ⟨by decide,
    h.1.trans (by
      have hz : get_zoom_fl binary32 (handle_event
          { Display.construct 8 6 200 100 1 2 100 20 120 20 0 with
            zoom_factor_ := binary32 (2 / 10) }
          ⟨100, 50, 0⟩ (SDL_MOUSEBUTTONDOWN SDL_BUTTON_RIGHT)) = 5033165 / 4194304 := by
        have hzf : (handle_event
            { Display.construct 8 6 200 100 1 2 100 20 120 20 0 with
              zoom_factor_ := binary32 (2 / 10) }
            ⟨100, 50, 0⟩ (SDL_MOUSEBUTTONDOWN SDL_BUTTON_RIGHT)).zoom_factor_
            = 13421773 / 67108864 := by
          simp [handle_event, mouse_button_down, SDL_BUTTON_RIGHT, SDL_BUTTON_LEFT,
            binary32_one_fifth]
        unfold get_zoom_fl
        rw [hzf, if_pos (by norm_num), binary32_zoom_step]
      have ht : truncToInt (15204351 / 524288) = 28 := by
        simp only [truncToInt]
        norm_num
      rw [hz]
      simp only [handle_event, mouse_button_down, Display.construct, SDL_BUTTON_RIGHT,
        SDL_BUTTON_LEFT, (by decide : Int.tdiv ((8 : Nat) : Int) 2 = 4)]
      norm_num
      rw [binary32_four, binary32_thirty, binary32_drag_quotient, binary32_drag_sum, ht])⟩


/-- Claim C15 as amended. In every refresh the draw operations are issued in
the order clear, video blit, HUD panels, error overlay, slider line, present:
no operation of a later stage comes before one of an earlier stage, and the
operations of each stage are, in this order: the clear; the video blit when a
side is shown; with the HUD shown the four operations of the left label (when
the left side is shown), the four of the right label (when the right side is
shown) and the two of the center text; the backing rectangle and the message
texture of the overlay when one is held; the slider line with the HUD shown in
compare mode; the present.  Whenever an error overlay is held and the slider
line is drawn the sequence is exactly: clear, video blit, the ten HUD
operations, the backing rectangle of the overlay, the message texture, the
slider line, present. -/
theorem draw_order (s : Display) (error_message_texture rendered_message : Option Nat) :
    (List.Pairwise (fun a b => a ≤ b)
        ((refresh_draw_ops s error_message_texture rendered_message).map draw_stage) ∧
      (refresh_draw_ops s error_message_texture rendered_message).filter
          (fun o => decide (draw_stage o = 0)) = [DrawOp.SDL_RenderClear] ∧
      (refresh_draw_ops s error_message_texture rendered_message).filter
          (fun o => decide (draw_stage o = 1))
        = (if s.show_left_ || s.show_right_ then [DrawOp.SDL_RenderCopy Layer.video] else []) ∧
      (refresh_draw_ops s error_message_texture rendered_message).filter
          (fun o => decide (draw_stage o = 2))
        = (if s.show_hud_ then
            (if s.show_left_ then
              [DrawOp.SDL_RenderFillRect Layer.left_text,
                DrawOp.SDL_RenderFillRect Layer.left_position,
                DrawOp.SDL_RenderCopy Layer.left_text,
                DrawOp.SDL_RenderCopy Layer.left_position]
            else [])
            ++ (if s.show_right_ then
              [DrawOp.SDL_RenderFillRect Layer.right_text,
                DrawOp.SDL_RenderFillRect Layer.right_position,
                DrawOp.SDL_RenderCopy Layer.right_text,
                DrawOp.SDL_RenderCopy Layer.right_position]
            else [])
            ++ [DrawOp.SDL_RenderFillRect Layer.center_text,
                DrawOp.SDL_RenderCopy Layer.center_text]
          else []) ∧
      (refresh_draw_ops s error_message_texture rendered_message).filter
          (fun o => decide (draw_stage o = 3))
        = (if (rendered_message.orElse fun _ => error_message_texture).isSome then
            [DrawOp.SDL_RenderFillRect Layer.error_message,
              DrawOp.SDL_RenderCopy Layer.error_message]
          else []) ∧
      (refresh_draw_ops s error_message_texture rendered_message).filter
          (fun o => decide (draw_stage o = 4))
        = (if s.show_hud_ && compare_mode s then [DrawOp.SDL_RenderDrawLine] else []) ∧
      (refresh_draw_ops s error_message_texture rendered_message).filter
          (fun o => decide (draw_stage o = 5)) = [DrawOp.SDL_RenderPresent]) ∧
    ((rendered_message.orElse fun _ => error_message_texture).isSome = true →
      s.show_hud_ = true → compare_mode s = true →
      refresh_draw_ops s error_message_texture rendered_message =
        [DrawOp.SDL_RenderClear, DrawOp.SDL_RenderCopy Layer.video,
          DrawOp.SDL_RenderFillRect Layer.left_text,
          DrawOp.SDL_RenderFillRect Layer.left_position,
          DrawOp.SDL_RenderCopy Layer.left_text, DrawOp.SDL_RenderCopy Layer.left_position,
          DrawOp.SDL_RenderFillRect Layer.right_text,
          DrawOp.SDL_RenderFillRect Layer.right_position,
          DrawOp.SDL_RenderCopy Layer.right_text, DrawOp.SDL_RenderCopy Layer.right_position,
          DrawOp.SDL_RenderFillRect Layer.center_text, DrawOp.SDL_RenderCopy Layer.center_text,
          DrawOp.SDL_RenderFillRect Layer.error_message,
          DrawOp.SDL_RenderCopy Layer.error_message,
          DrawOp.SDL_RenderDrawLine, DrawOp.SDL_RenderPresent]) := by
  constructor
  · unfold refresh_draw_ops compare_mode
    generalize (rendered_message.orElse fun _ => error_message_texture).isSome = held
    generalize s.show_left_ = l
    generalize s.show_right_ = r
    generalize s.show_hud_ = hud
    cases l <;> cases r <;> cases hud <;> cases held <;> decide
  · intro hheld hhud hcmp
    have hl : s.show_left_ = true := by
      unfold compare_mode at hcmp
      cases h : s.show_left_
      · rw [h] at hcmp
        simp at hcmp
      · rfl
    have hr : s.show_right_ = true := by
      unfold compare_mode at hcmp
      rw [hl] at hcmp
      simpa using hcmp
    unfold refresh_draw_ops
    rw [hheld, hcmp, hhud, hl, hr]
    rfl

/-- The amended C15 theorem at a fresh display holding the overlay texture 7. -/
theorem draw_order_witness :
    ((none : Option Nat).orElse fun _ => some 7).isSome = true ∧
    refresh_draw_ops (Display.construct 8 6 16 12 1 2 100 20 120 20 0) (some 7) none =
      [DrawOp.SDL_RenderClear, DrawOp.SDL_RenderCopy Layer.video,
        DrawOp.SDL_RenderFillRect Layer.left_text,
        DrawOp.SDL_RenderFillRect Layer.left_position,
        DrawOp.SDL_RenderCopy Layer.left_text, DrawOp.SDL_RenderCopy Layer.left_position,
        DrawOp.SDL_RenderFillRect Layer.right_text,
        DrawOp.SDL_RenderFillRect Layer.right_position,
        DrawOp.SDL_RenderCopy Layer.right_text, DrawOp.SDL_RenderCopy Layer.right_position,
        DrawOp.SDL_RenderFillRect Layer.center_text, DrawOp.SDL_RenderCopy Layer.center_text,
        DrawOp.SDL_RenderFillRect Layer.error_message,
        DrawOp.SDL_RenderCopy Layer.error_message,
        DrawOp.SDL_RenderDrawLine, DrawOp.SDL_RenderPresent] :=
  ⟨by decide,
    (draw_order (Display.construct 8 6 16 12 1 2 100 20 120 20 0) (some 7) none).2
      (by decide) (by decide) (by decide)⟩


/-! ## The texture update, column by column -/

/-- The inner loop of `SDL_UpdateTexture`: `n` bytes copied from offset `S` of
the pixels to offset `D` of the texture; nothing else is written. -/
theorem copy_bytes_spec (pixels : Plane) (sI dI : Int) (S D : Nat) (hs : sI = S) (hd : dI = D)
    (n : Nat) (tex : Plane) (hS : S + n ≤ pixels.length) (hD : D + n ≤ tex.length) :
    ∃ tex1,
      forLoop
        (fun b t => do
          let v ← loadByte pixels (sI + b)
          storeByte t (dI + b) v.toNat) n tex = some tex1 ∧
      tex1.length = tex.length ∧
      ∀ j, tex1.getD j 0 =
        if D ≤ j ∧ j < D + n then pixels.getD (S + (j - D)) 0 else tex.getD j 0 := by
  subst hs hd
  induction n with
  | zero =>
    refine ⟨tex, rfl, rfl, fun j => ?_⟩
    rw [if_neg (by omega)]
  | succ n ih =>
    obtain ⟨t, ht, hlen, hget⟩ := ih (by omega) (by omega)
    have e1 : ((S : Int) + ((n : Nat) : Int)) = ((S + n : Nat) : Int) := by push_cast; ring
    have e2 : ((D : Int) + ((n : Nat) : Int)) = ((D + n : Nat) : Int) := by push_cast; ring
    have hstep : forLoop
        (fun b t => do
          let v ← loadByte pixels ((S : Int) + b)
          storeByte t ((D : Int) + b) v.toNat) (n + 1) tex
        = some (t.set (D + n) (pixels.getD (S + n) 0)) := by
      show (forLoop _ n tex).bind _ = _
      rw [ht, Option.some_bind]
      show (loadByte pixels ((S : Int) + ((n : Nat) : Int))).bind _ = _
      rw [e1, loadByte_of_lt pixels _ (by omega), Option.some_bind, e2, Int.toNat_ofNat,
        storeByte_of_lt _ _ _ (by omega)]
    refine ⟨_, hstep, ?_, fun j => ?_⟩
    · rw [List.length_set]
      exact hlen
    · rw [getD_set _ _ _ _ (by omega), hget j]
      by_cases h0 : D + n = j
      · rw [if_pos h0, if_pos (by omega)]
        have e : j - D = n := by omega
        rw [e]
      · rw [if_neg h0]
        by_cases hin : D ≤ j ∧ j < D + n
        · rw [if_pos hin, if_pos (by omega)]
        · rw [if_neg hin, if_neg (by omega)]

/-- The rows of `SDL_UpdateTexture`: after `m` rows of a rectangle at column
`X` of width `Wd`, those rows hold the pixels and every other byte is as it
was. -/
theorem copy_rows_spec (W X Wd H P pitch : Nat) (tex pixels : Plane)
    (hX : X + Wd ≤ W) (hP : P + 3 * Wd ≤ pitch) (hpix : H * pitch ≤ pixels.length)
    (htex : H * (3 * W) ≤ tex.length) (m : Nat) (hm : m ≤ H) :
    ∃ tex1,
      forLoop
        (fun row t =>
          forLoop
            (fun b t => do
              let v ← loadByte pixels ((P : Int) + row * (pitch : Int) + b)
              storeByte t (((0 : Int) + row) * ((W : Int) * 3) + (X : Int) * 3 + b) v.toNat)
            (((Wd : Int) * 3).toNat) t) m tex = some tex1 ∧
      tex1.length = tex.length ∧
      (∀ row b, row < m → b < 3 * Wd →
        tex1.getD (row * (3 * W) + 3 * X + b) 0 = pixels.getD (P + row * pitch + b) 0) ∧
      (∀ j, (∀ row, row < m → ¬ (row * (3 * W) + 3 * X ≤ j ∧
          j < row * (3 * W) + 3 * X + 3 * Wd)) → tex1.getD j 0 = tex.getD j 0) := by
  induction m with
  | zero =>
    exact ⟨tex, rfl, rfl, fun row b h => absurd h (by omega), fun j _ => rfl⟩
  | succ m ih =>
    obtain ⟨t, ht, hlen, hin, hout⟩ := ih (by omega)
    have ep : (m + 1) * pitch ≤ H * pitch := Nat.mul_le_mul_right pitch hm
    have ep1 : (m + 1) * pitch = m * pitch + pitch := by ring
    have ew : (m + 1) * (3 * W) ≤ H * (3 * W) := Nat.mul_le_mul_right (3 * W) hm
    have ew1 : (m + 1) * (3 * W) = m * (3 * W) + 3 * W := by ring
    have hn : ((Wd : Int) * 3).toNat = 3 * Wd := by omega
    obtain ⟨t1, ht1, hlen1, hget1⟩ :=
      copy_bytes_spec pixels ((P : Int) + ((m : Nat) : Int) * (pitch : Int))
        (((0 : Int) + ((m : Nat) : Int)) * ((W : Int) * 3) + (X : Int) * 3)
        (P + m * pitch) (m * (3 * W) + 3 * X) (by push_cast; ring) (by push_cast; ring)
        (3 * Wd) t (by omega) (by omega)
    have hstep : forLoop
        (fun row t =>
          forLoop
            (fun b t => do
              let v ← loadByte pixels ((P : Int) + row * (pitch : Int) + b)
              storeByte t (((0 : Int) + row) * ((W : Int) * 3) + (X : Int) * 3 + b) v.toNat)
            (((Wd : Int) * 3).toNat) t) (m + 1) tex = some t1 := by
      show (forLoop _ m tex).bind _ = _
      rw [ht, Option.some_bind, hn]
      exact ht1
    refine ⟨t1, hstep, by rw [hlen1, hlen], fun row b hrow hb => ?_, fun j hj => ?_⟩
    · rw [hget1]
      by_cases hrm : row < m
      · have er : (row + 1) * (3 * W) ≤ m * (3 * W) := Nat.mul_le_mul_right (3 * W) hrm
        have er1 : (row + 1) * (3 * W) = row * (3 * W) + 3 * W := by ring
        rw [if_neg (by omega)]
        exact hin row b hrm hb
      · have hr : row = m := by omega
        subst hr
        rw [if_pos (by omega)]
        have e : P + row * pitch + (row * (3 * W) + 3 * X + b - (row * (3 * W) + 3 * X))
            = P + row * pitch + b := by omega
        rw [e]
    · rw [hget1]
      have hm1 := hj m (by omega)
      rw [if_neg (by omega)]
      exact hout j (fun row hrow => hj row (by omega))

/-- The call `SDL_UpdateTexture` for a rectangle `{X, 0, Wd, H}` inside a
texture of `W` columns and `H` rows: it returns, the bytes of the rectangle are
the pixels, and every other byte of the texture is as it was. -/
theorem SDL_UpdateTexture_spec (W X Wd H P pitch : Nat) (tex pixels : Plane)
    (vwI xI wI hI pI pitchI : Int) (e1 : vwI = W) (e2 : xI = X) (e3 : wI = Wd) (e4 : hI = H)
    (e5 : pI = P) (e6 : pitchI = pitch)
    (hX : X + Wd ≤ W) (hP : P + 3 * Wd ≤ pitch) (hpix : H * pitch ≤ pixels.length)
    (htex : H * (3 * W) ≤ tex.length) :
    ∃ tex1, SDL_UpdateTexture vwI tex ⟨xI, 0, wI, hI⟩ pixels pI pitchI = some tex1 ∧
      tex1.length = tex.length ∧
      (∀ row b, row < H → b < 3 * Wd →
        tex1.getD (row * (3 * W) + 3 * X + b) 0 = pixels.getD (P + row * pitch + b) 0) ∧
      (∀ j, (∀ row, row < H → ¬ (row * (3 * W) + 3 * X ≤ j ∧
          j < row * (3 * W) + 3 * X + 3 * Wd)) → tex1.getD j 0 = tex.getD j 0) := by
  subst e1 e2 e3 e4 e5 e6
  obtain ⟨t, ht, hrest⟩ := copy_rows_spec W X Wd H P pitch tex pixels hX hP hpix htex H le_rfl
  refine ⟨t, ?_, hrest⟩
  unfold SDL_UpdateTexture
  have hg : (0 : Int) ≤ (X : Int) ∧ (0 : Int) ≤ (Wd : Int) ∧ (X : Int) + (Wd : Int) ≤ (W : Int) := by
    omega
  simp only [hg, and_self, if_true, Int.toNat_ofNat]
  exact ht


/-- Bytes of different rows of a row-major plane do not overlap. -/
theorem row_ranges_apart (W row y : Nat) (h : row ≠ y) :
    row * (3 * W) + 3 * W ≤ y * (3 * W) ∨ y * (3 * W) + 3 * W ≤ row * (3 * W) := by
  rcases Nat.lt_or_gt_of_ne h with h1 | h1
  · left
    have e := Nat.mul_le_mul_right (3 * W) (show row + 1 ≤ y by omega)
    have e1 : (row + 1) * (3 * W) = row * (3 * W) + 3 * W := by ring
    omega
  · right
    have e := Nat.mul_le_mul_right (3 * W) (show y + 1 ≤ row by omega)
    have e1 : (y + 1) * (3 * W) = y * (3 * W) + 3 * W := by ring
    omega

/-- The left-hand update of `refresh`: columns `[0, S)` of every row receive
the left frame, the columns from `S` on are as they were. -/
theorem left_update_spec (W H S pl : Nat) (tex left : Plane) (hS : S ≤ W) (hpl : 3 * W ≤ pl)
    (hsl : H * pl ≤ left.length) (htex : H * (3 * W) ≤ tex.length) :
    ∃ t1, SDL_UpdateTexture (W : Int) tex ⟨0, 0, (S : Int), (H : Int)⟩ left 0 (pl : Int) = some t1 ∧
      t1.length = tex.length ∧
      (∀ y x c, y < H → x < S → c < 3 →
        t1.getD (y * (3 * W) + 3 * x + c) 0 = left.getD (y * pl + 3 * x + c) 0) ∧
      (∀ y x c, y < H → S ≤ x → x < W → c < 3 →
        t1.getD (y * (3 * W) + 3 * x + c) 0 = tex.getD (y * (3 * W) + 3 * x + c) 0) := by
  obtain ⟨t1, h1, hlen, hin, hout⟩ :=
    SDL_UpdateTexture_spec W 0 S H 0 pl tex left (W : Int) 0 (S : Int) (H : Int) 0 (pl : Int)
      rfl rfl rfl rfl rfl rfl (by omega) (by omega) hsl htex
  refine ⟨t1, h1, hlen, fun y x c hy hx hc => ?_, fun y x c hy hSx hx hc => ?_⟩
  · have e := hin y (3 * x + c) hy (by omega)
    have i1 : y * (3 * W) + 3 * 0 + (3 * x + c) = y * (3 * W) + 3 * x + c := by omega
    have i2 : 0 + y * pl + (3 * x + c) = y * pl + 3 * x + c := by omega
    rw [i1, i2] at e
    exact e
  · apply hout
    intro row hrow
    by_cases hry : row = y
    · subst hry
      omega
    · rcases row_ranges_apart W row y hry with h | h <;> omega

/-- The right-hand update of `refresh` from `src` (the right frame, or the diff
buffer): columns `[S, W)` of every row receive the pixels of `src` at the same
columns, the columns before `S` are as they were. -/
theorem right_update_spec (W H S q : Nat) (pitchI : Int) (e6 : pitchI = q) (tex src : Plane)
    (hS : S ≤ W) (hq : 3 * W ≤ q) (hsrc : H * q ≤ src.length)
    (htex : H * (3 * W) ≤ tex.length) :
    ∃ t2, SDL_UpdateTexture (W : Int) tex ⟨(S : Int), 0, (W : Int) - (S : Int), (H : Int)⟩ src
        ((S : Int) * 3) pitchI = some t2 ∧
      t2.length = tex.length ∧
      (∀ y x c, y < H → S ≤ x → x < W → c < 3 →
        t2.getD (y * (3 * W) + 3 * x + c) 0 = src.getD (y * q + 3 * x + c) 0) ∧
      (∀ y x c, y < H → x < S → c < 3 →
        t2.getD (y * (3 * W) + 3 * x + c) 0 = tex.getD (y * (3 * W) + 3 * x + c) 0) := by
  obtain ⟨t2, h2, hlen, hin, hout⟩ :=
    SDL_UpdateTexture_spec W S (W - S) H (3 * S) q tex src (W : Int) (S : Int)
      ((W : Int) - (S : Int)) (H : Int) ((S : Int) * 3) pitchI
      rfl rfl (by omega) rfl (by push_cast; ring) e6 (by omega) (by omega) hsrc htex
  refine ⟨t2, h2, hlen, fun y x c hy hSx hx hc => ?_, fun y x c hy hx hc => ?_⟩
  · have e := hin y (3 * (x - S) + c) hy (by omega)
    have i1 : y * (3 * W) + 3 * S + (3 * (x - S) + c) = y * (3 * W) + 3 * x + c := by omega
    have i2 : 3 * S + y * q + (3 * (x - S) + c) = y * q + 3 * x + c := by omega
    rw [i1, i2] at e
    exact e
  · apply hout
    intro row hrow
    by_cases hry : row = y
    · subst hry
      omega
    · rcases row_ranges_apart W row y hry with h | h <;> omega

/-- The diff buffer `update_difference` returns, with natural dimensions. -/
theorem update_difference_values (W H S pl pr : Nat) (left right diff : Plane)
    (hS : S ≤ W) (hpl : 3 * W ≤ pl) (hpr : 3 * W ≤ pr)
    (hsl : H * pl ≤ left.length) (hsr : H * pr ≤ right.length)
    (hsd : H * (3 * W) ≤ diff.length) :
    ∃ d, update_difference (W : Int) (H : Int) diff left pl right pr (S : Int) = some d ∧
      d.length = diff.length ∧
      ∀ y x c, y < H → S ≤ x → x < W → c < 3 →
        d.getD (y * (3 * W) + 3 * x + c) 0 =
          diffByte (left.getD (y * pl + 3 * x + c) 0) (right.getD (y * pr + 3 * x + c) 0) := by
  obtain ⟨cm, hrun, -, -, -, -, -, -, -, -, -, hlen, hval⟩ :=
    diff_rows_spec W H S pl pr left right diff hS hpl hpr hsl hsr hsd H le_rfl
  refine ⟨cm.diff, ?_, hlen, hval⟩
  unfold update_difference
  rw [Int.toNat_ofNat, hrun]
  rfl


/-- Claim C19 as amended. For every refresh in compare mode whose split is not
`video_width_ - 1`, the split is in `[0, video_width_]`, the texture update
returns, and afterwards every column `x < split_x` of the display texture holds
the left frame and every column `split_x ≤ x < video_width_` holds the right
frame, or in subtraction mode the freshly computed difference
`min(255, 2 * |left - right|)`, which is also what the diff buffer holds there.
The split is the one the code computes, under any rounding `fl` of its `float`
operations; the frames hold `video_height_` rows of their pitch, the texture
and the diff buffer `video_width_ * video_height_ * 3` bytes. -/
theorem texture_update_columns (fl : ℚ → ℚ) (s : Display)
    (texture_ plane_left plane_right : Plane)
    (pitch_left pitch_right : Nat) (sp : Int)
    (hcmp : compare_mode s = true) (hsp : split_x_fl fl s = some sp)
    (hne : sp ≠ s.video_width_ - 1)
    (hvw : 0 ≤ s.video_width_) (hvh : 0 ≤ s.video_height_)
    (hpl : 3 * s.video_width_ ≤ pitch_left) (hpr : 3 * s.video_width_ ≤ pitch_right)
    (hsl : s.video_height_ * pitch_left ≤ plane_left.length)
    (hsr : s.video_height_ * pitch_right ≤ plane_right.length)
    (hsd : s.video_width_ * s.video_height_ * 3 ≤ s.diff_buffer_.length)
    (hst : s.video_width_ * s.video_height_ * 3 ≤ texture_.length) :
    (0 ≤ sp ∧ sp ≤ s.video_width_) ∧
    ∃ diff1 tex1,
      texture_update_fl fl s texture_ plane_left pitch_left plane_right pitch_right
        = some (diff1, tex1) ∧
      tex1.length = texture_.length ∧
      ∀ y x c : Nat, (y : Int) < s.video_height_ → (x : Int) < s.video_width_ → c < 3 →
        (tex1.getD (y * (3 * s.video_width_.toNat) + 3 * x + c) 0 =
          if (x : Int) < sp then plane_left.getD (y * pitch_left + 3 * x + c) 0
          else if s.subtraction_mode_ = true then
            diffByte (plane_left.getD (y * pitch_left + 3 * x + c) 0)
              (plane_right.getD (y * pitch_right + 3 * x + c) 0)
          else plane_right.getD (y * pitch_right + 3 * x + c) 0) ∧
        (sp ≤ (x : Int) → s.subtraction_mode_ = true →
          diff1.getD (y * (3 * s.video_width_.toNat) + 3 * x + c) 0 =
            tex1.getD (y * (3 * s.video_width_.toNat) + 3 * x + c) 0) := by
  have hl : s.show_left_ = true := by
    unfold compare_mode at hcmp
    cases h : s.show_left_
    · rw [h] at hcmp
      simp at hcmp
    · rfl
  have hr : s.show_right_ = true := by
    unfold compare_mode at hcmp
    rw [hl] at hcmp
    simpa using hcmp
  have e : mouse_video_x_fl fl s = sp := by
    simpa [split_x_fl, compare_mode, hl, hr] using hsp
  have h0 : 0 ≤ sp := by
    rw [← e]
    unfold mouse_video_x_fl
    exact le_min (le_max_left _ _) hvw
  have h1 : sp ≤ s.video_width_ := by
    rw [← e]
    unfold mouse_video_x_fl
    exact min_le_right _ _
  clear e
  refine ⟨⟨h0, h1⟩, ?_⟩
  obtain ⟨W, hW⟩ := Int.eq_ofNat_of_zero_le hvw
  obtain ⟨H, hH⟩ := Int.eq_ofNat_of_zero_le hvh
  obtain ⟨S, rfl⟩ := Int.eq_ofNat_of_zero_le h0
  rw [hW] at h1 hne hpl hpr hsd hst
  rw [hH] at hsl hsr hsd hst
  have hSW : S ≤ W := by omega
  have hpl1 : 3 * W ≤ pitch_left := by omega
  have hpr1 : 3 * W ≤ pitch_right := by omega
  have hsl1 : H * pitch_left ≤ plane_left.length := by exact_mod_cast hsl
  have hsr1 : H * pitch_right ≤ plane_right.length := by exact_mod_cast hsr
  have hsd1 : H * (3 * W) ≤ s.diff_buffer_.length := by
    have : ((H * (3 * W) : Nat) : Int) ≤ s.diff_buffer_.length := by
      push_cast
      linarith
    exact_mod_cast this
  have hst1 : H * (3 * W) ≤ texture_.length := by
    have : ((H * (3 * W) : Nat) : Int) ≤ texture_.length := by
      push_cast
      linarith
    exact_mod_cast this
  have key : ∀ t : Plane, t.length = texture_.length →
      (∀ y x c, y < H → x < S → c < 3 →
        t.getD (y * (3 * W) + 3 * x + c) 0 = plane_left.getD (y * pitch_left + 3 * x + c) 0) →
      ∃ diff1 tex1,
        (if (S : Int) < (W : Int) - 1 then
          if s.subtraction_mode_ = true then do
            let diff ← update_difference (W : Int) (H : Int) s.diff_buffer_
              plane_left pitch_left plane_right pitch_right (S : Int)
            let texture2 ← SDL_UpdateTexture (W : Int) t
              ⟨(S : Int), 0, (W : Int) - (S : Int), (H : Int)⟩
              diff ((S : Int) * 3) ((W : Int) * 3)
            some (diff, texture2)
          else do
            let texture2 ← SDL_UpdateTexture (W : Int) t
              ⟨(S : Int), 0, (W : Int) - (S : Int), (H : Int)⟩
              plane_right ((S : Int) * 3) (pitch_right : Int)
            some (s.diff_buffer_, texture2)
        else some (s.diff_buffer_, t)) = some (diff1, tex1) ∧
        tex1.length = texture_.length ∧
        ∀ y x c : Nat, (y : Int) < (H : Int) → (x : Int) < (W : Int) → c < 3 →
          (tex1.getD (y * (3 * W) + 3 * x + c) 0 =
            if (x : Int) < (S : Int) then plane_left.getD (y * pitch_left + 3 * x + c) 0
            else if s.subtraction_mode_ = true then
              diffByte (plane_left.getD (y * pitch_left + 3 * x + c) 0)
                (plane_right.getD (y * pitch_right + 3 * x + c) 0)
            else plane_right.getD (y * pitch_right + 3 * x + c) 0) ∧
          ((S : Int) ≤ (x : Int) → s.subtraction_mode_ = true →
            diff1.getD (y * (3 * W) + 3 * x + c) 0 = tex1.getD (y * (3 * W) + 3 * x + c) 0) := by
    intro t htlen htleft
    by_cases hg : (S : Int) < (W : Int) - 1
    · rw [if_pos hg]
      by_cases hsub : s.subtraction_mode_ = true
      · rw [if_pos hsub]
        obtain ⟨d, hd, hdlen, hdval⟩ := update_difference_values W H S pitch_left pitch_right
          plane_left plane_right s.diff_buffer_ hSW hpl1 hpr1 hsl1 hsr1 hsd1
        obtain ⟨t2, ht2, hlen2, hin2, hout2⟩ := right_update_spec W H S (3 * W) ((W : Int) * 3)
          (by push_cast; ring) t d hSW le_rfl (by rw [hdlen]; exact hsd1)
          (by rw [htlen]; exact hst1)
        refine ⟨d, t2, ?_, by rw [hlen2, htlen], fun y x c hy hx hc => ?_⟩
        · rw [hd]
          simp only [Option.bind_eq_bind, Option.some_bind]
          rw [ht2]
          rfl
        · have hy1 : y < H := by omega
          have hx1 : x < W := by omega
          by_cases hxs : (x : Int) < (S : Int)
          · rw [if_pos hxs]
            refine ⟨?_, fun h => absurd h (by omega)⟩
            rw [hout2 y x c hy1 (by omega) hc]
            exact htleft y x c hy1 (by omega) hc
          · rw [if_neg hxs, if_pos hsub]
            have e := hin2 y x c hy1 (by omega) hx1 hc
            refine ⟨?_, fun _ _ => e.symm⟩
            rw [e]
            exact hdval y x c hy1 (by omega) hx1 hc
      · rw [if_neg hsub]
        obtain ⟨t2, ht2, hlen2, hin2, hout2⟩ := right_update_spec W H S pitch_right
          (pitch_right : Int) rfl t plane_right hSW hpr1 hsr1 (by rw [htlen]; exact hst1)
        refine ⟨s.diff_buffer_, t2, ?_, by rw [hlen2, htlen], fun y x c hy hx hc => ?_⟩
        · simp only [Option.bind_eq_bind]
          rw [ht2]
          rfl
        · have hy1 : y < H := by omega
          have hx1 : x < W := by omega
          refine ⟨?_, fun _ h => absurd h hsub⟩
          by_cases hxs : (x : Int) < (S : Int)
          · rw [if_pos hxs, hout2 y x c hy1 (by omega) hc]
            exact htleft y x c hy1 (by omega) hc
          · rw [if_neg hxs, if_neg hsub]
            exact hin2 y x c hy1 (by omega) hx1 hc
    · rw [if_neg hg]
      refine ⟨s.diff_buffer_, t, rfl, htlen, fun y x c hy hx hc => ?_⟩
      have hxs : (x : Int) < (S : Int) := by omega
      refine ⟨?_, fun h => absurd h (by omega)⟩
      rw [if_pos hxs]
      exact htleft y x c (by omega) (by omega) hc
  unfold texture_update_fl texture_update_at
  rw [hsp]
  simp only [hl, hr, true_and, hW, hH, Int.toNat_ofNat]
  by_cases hS0 : (S : Int) > 0
  · obtain ⟨t1, ht1, hlen1, hL1, -⟩ := left_update_spec W H S pitch_left texture_ plane_left
      hSW hpl1 hsl1 hst1
    rw [if_pos hS0, ht1]
    simp only [Option.bind_eq_bind, Option.some_bind]
    exact key t1 hlen1 hL1
  · rw [if_neg hS0]
    simp only [Option.bind_eq_bind, Option.some_bind]
    exact key texture_ rfl (fun y x c _ hx _ => absurd hx (by omega))

theorem binary32_one : binary32 1 = 1 := by
  rw [binary32_eq 1 0 8388608 (by norm_num [abs_of_pos]) (by norm_num [abs_of_pos])
    (by norm_num) (by norm_num)]
  norm_num

/-- The split of a fresh 4 x 2 display in an 8 x 4 window after a left click at
window column `4 + d`, in the arithmetic of the code, for `d = 0` and `d = 1`:
the zoom is `1.0f`, the quotient is `d`, the split is `d + 2`. -/
theorem split_x_binary32_small :
    split_x_fl binary32 (handle_event (Display.construct 4 2 8 4 1 2 100 20 120 20 0)
      ⟨4, 1, 0⟩ (SDL_MOUSEBUTTONDOWN SDL_BUTTON_LEFT)) = some 2 ∧
    split_x_fl binary32 (handle_event (Display.construct 4 2 8 4 1 2 100 20 120 20 0)
      ⟨5, 1, 0⟩ (SDL_MOUSEBUTTONDOWN SDL_BUTTON_LEFT)) = some 3 := by
  have hz : binary32 (1 + 0) = 1 := by
    rw [add_zero]
    exact binary32_one
  have h0 : (((4 : Int) - Int.tdiv 8 2 : Int) : ℚ) = 0 := by
    rw [(by decide : Int.tdiv 8 2 = 4)]; norm_num
  have h1 : (((5 : Int) - Int.tdiv 8 2 : Int) : ℚ) = 1 := by
    rw [(by decide : Int.tdiv 8 2 = 4)]; norm_num
  have hr0 : roundToInt 0 = 0 := by norm_num [roundToInt]
  have hr1 : roundToInt 1 = 1 := by norm_num [roundToInt]
  have e4 : handle_event (Display.construct 4 2 8 4 1 2 100 20 120 20 0)
      ⟨4, 1, 0⟩ (SDL_MOUSEBUTTONDOWN SDL_BUTTON_LEFT) =
      { Display.construct 4 2 8 4 1 2 100 20 120 20 0 with
        left_button_down_ := true, mouse_x := 4, mouse_y := 1 } := by
    simp [handle_event, mouse_button_down, SDL_BUTTON_LEFT, SDL_BUTTON_RIGHT, KMOD_LCTRL,
      KMOD_RCTRL]
  have e5 : handle_event (Display.construct 4 2 8 4 1 2 100 20 120 20 0)
      ⟨5, 1, 0⟩ (SDL_MOUSEBUTTONDOWN SDL_BUTTON_LEFT) =
      { Display.construct 4 2 8 4 1 2 100 20 120 20 0 with
        left_button_down_ := true, mouse_x := 5, mouse_y := 1 } := by
    simp [handle_event, mouse_button_down, SDL_BUTTON_LEFT, SDL_BUTTON_RIGHT, KMOD_LCTRL,
      KMOD_RCTRL]
  constructor
  · rw [e4]
    simp only [split_x_fl, compare_mode, mouse_video_x_fl, get_zoom_fl, Display.construct]
    rw [h0, if_pos (le_refl (0 : ℚ)), hz, binary32_zero, zero_div, binary32_zero, hr0,
      (by decide : Int.tdiv ((4 : Nat) : Int) 2 = 2)]
    decide
  · rw [e5]
    simp only [split_x_fl, compare_mode, mouse_video_x_fl, get_zoom_fl, Display.construct]
    rw [h1, if_pos (le_refl (0 : ℚ)), hz, binary32_one, div_one, binary32_one, hr1,
      (by decide : Int.tdiv ((4 : Nat) : Int) 2 = 2)]
    decide

/-- The amended C19 theorem in the arithmetic of the code (`fl = binary32`) on
a 4 x 2 display in compare mode with the pointer at window column 4
(`split_x = 2`), a texture of bytes 9, a left frame of bytes 1 and a right frame
of bytes 2: columns 0 and 1 receive the left frame, columns 2 and 3 the right. -/
theorem texture_update_columns_witness :
    (compare_mode (handle_event (Display.construct 4 2 8 4 1 2 100 20 120 20 0) ⟨4, 1, 0⟩
        (SDL_MOUSEBUTTONDOWN SDL_BUTTON_LEFT)) = true ∧
      split_x_fl binary32 (handle_event (Display.construct 4 2 8 4 1 2 100 20 120 20 0)
        ⟨4, 1, 0⟩ (SDL_MOUSEBUTTONDOWN SDL_BUTTON_LEFT)) = some 2 ∧
      (2 : Int) ≠ (handle_event (Display.construct 4 2 8 4 1 2 100 20 120 20 0) ⟨4, 1, 0⟩
        (SDL_MOUSEBUTTONDOWN SDL_BUTTON_LEFT)).video_width_ - 1) ∧
    ∃ diff1 tex1,
      texture_update_fl binary32
          (handle_event (Display.construct 4 2 8 4 1 2 100 20 120 20 0) ⟨4, 1, 0⟩
            (SDL_MOUSEBUTTONDOWN SDL_BUTTON_LEFT))
          (List.replicate 24 9) (List.replicate 24 1) 12 (List.replicate 24 2) 12
        = some (diff1, tex1) ∧
      tex1 = [1, 1, 1, 1, 1, 1, 2, 2, 2, 2, 2, 2, 1, 1, 1, 1, 1, 1, 2, 2, 2, 2, 2, 2] := by
  have hs2 := split_x_binary32_small.1
  obtain ⟨-, diff1, tex1, hrun, -, -⟩ := texture_update_columns binary32
    (handle_event (Display.construct 4 2 8 4 1 2 100 20 120 20 0) ⟨4, 1, 0⟩
      (SDL_MOUSEBUTTONDOWN SDL_BUTTON_LEFT))
    (List.replicate 24 9) (List.replicate 24 1) (List.replicate 24 2) 12 12 2
    (by decide) hs2 (by decide) (by decide) (by decide) (by decide) (by decide) (by decide)
    (by decide) (by decide) (by decide)
  refine ⟨⟨by decide, hs2, by decide⟩, diff1, tex1, hrun, ?_⟩
  have hval : texture_update_fl binary32
      (handle_event (Display.construct 4 2 8 4 1 2 100 20 120 20 0)
        ⟨4, 1, 0⟩ (SDL_MOUSEBUTTONDOWN SDL_BUTTON_LEFT))
      (List.replicate 24 9) (List.replicate 24 1) 12 (List.replicate 24 2) 12 =
      some (List.replicate 24 0,
        [1, 1, 1, 1, 1, 1, 2, 2, 2, 2, 2, 2, 1, 1, 1, 1, 1, 1, 2, 2, 2, 2, 2, 2]) := by
    unfold texture_update_fl
    rw [hs2]
    decide
  rw [hval] at hrun
  have e : [1, 1, 1, 1, 1, 1, 2, 2, 2, 2, 2, 2, 1, 1, 1, 1, 1, 1, 2, 2, 2, 2, 2, 2] = tex1 :=
    congrArg Prod.snd (Option.some.inj hrun)
  exact e.symm

/-- Claim C19 fails as stated: in the arithmetic of the code a 4 x 2 display in
compare mode with the pointer at window column 5 has
`split_x = 3 = video_width_ - 1`; the texture update pushes the left columns
0..2 and leaves column 3 as it was (bytes 9), where the right frame has
bytes 2. -/
theorem texture_update_stale_column :
    compare_mode (handle_event (Display.construct 4 2 8 4 1 2 100 20 120 20 0) ⟨5, 1, 0⟩
      (SDL_MOUSEBUTTONDOWN SDL_BUTTON_LEFT)) = true ∧
    split_x_fl binary32 (handle_event (Display.construct 4 2 8 4 1 2 100 20 120 20 0)
      ⟨5, 1, 0⟩ (SDL_MOUSEBUTTONDOWN SDL_BUTTON_LEFT)) = some 3 ∧
    texture_update_fl binary32
        (handle_event (Display.construct 4 2 8 4 1 2 100 20 120 20 0) ⟨5, 1, 0⟩
          (SDL_MOUSEBUTTONDOWN SDL_BUTTON_LEFT))
        (List.replicate 24 9) (List.replicate 24 1) 12 (List.replicate 24 2) 12 =
      some (List.replicate 24 0,
        [1, 1, 1, 1, 1, 1, 1, 1, 1, 9, 9, 9, 1, 1, 1, 1, 1, 1, 1, 1, 1, 9, 9, 9]) ∧
    ¬ ∃ diff1 tex1,
      texture_update_fl binary32
          (handle_event (Display.construct 4 2 8 4 1 2 100 20 120 20 0) ⟨5, 1, 0⟩
            (SDL_MOUSEBUTTONDOWN SDL_BUTTON_LEFT))
          (List.replicate 24 9) (List.replicate 24 1) 12 (List.replicate 24 2) 12
        = some (diff1, tex1) ∧
      tex1.getD (0 * (3 * 4) + 3 * 3 + 0) 0
        = (List.replicate 24 2 : Plane).getD (0 * 12 + 3 * 3 + 0) 0 := by
  have hs := split_x_binary32_small.2
  have hval : texture_update_fl binary32
      (handle_event (Display.construct 4 2 8 4 1 2 100 20 120 20 0)
        ⟨5, 1, 0⟩ (SDL_MOUSEBUTTONDOWN SDL_BUTTON_LEFT))
      (List.replicate 24 9) (List.replicate 24 1) 12 (List.replicate 24 2) 12 =
      some (List.replicate 24 0,
        [1, 1, 1, 1, 1, 1, 1, 1, 1, 9, 9, 9, 1, 1, 1, 1, 1, 1, 1, 1, 1, 9, 9, 9]) := by
    unfold texture_update_fl
    rw [hs]
    decide
  refine ⟨by decide, hs, hval, ?_⟩
  rintro ⟨diff1, tex1, hrun, hbyte⟩
  rw [hval] at hrun
  have e : [1, 1, 1, 1, 1, 1, 1, 1, 1, 9, 9, 9, 1, 1, 1, 1, 1, 1, 1, 1, 1, 9, 9, 9] = tex1 :=
    congrArg Prod.snd (Option.some.inj hrun)
  rw [← e] at hbyte
  exact absurd hbyte (by decide)

theorem texture_update_fl_id (s : Display) (texture_ plane_left plane_right : Plane)
    (pitch_left pitch_right : Nat) :
    texture_update_fl id s texture_ plane_left pitch_left plane_right pitch_right =
      texture_update s texture_ plane_left pitch_left plane_right pitch_right := rfl

end VideoCompare
